import Mathlib

/-!
# AntigravityOS — verification of the idempotency & deduplication core

Shallow embedding, in Lean 4, of the deduplication / idempotency pattern of the
AntigravityOS repository:

* `agos/dedup_store.py` — fingerprint normalizer, dedup key builder, durable
  dedup store (`normalize_url`, `normalize_title`, `build_key`, `check`,
  `upsert_seen`);
* `scripts/dedup_rss_inbox.py` — offline duplicate resolver
  (`normalize_url`, `normalize_title`, `build_dedup_key`, `should_keep`,
  `find_duplicates`, apply/archive mode);
* `scripts/rollback_dedup_manifest.py` — manifest rollback;
* `agos/notify.py` — alert dedup/cooldown engine (`send_system_alert`);
* `agents/daily_briefing/commit_digest_state.py` and
  `agents/daily_briefing/commit_digest.py` — idempotent run tracker.

Python strings are modelled as `List Char` (Unicode scalar sequences) wrapped
in `String` at API boundaries.  The URL helpers of `urllib.parse`
(`urlsplit`, `parse_qsl`, `urlencode`/`quote_plus`, `urlunsplit`) are embedded
following the CPython 3.11 implementation; percent-decoded query names and
values are represented by their UTF-8 byte sequences (`List Nat`), which
coincides with CPython's `str` values on all valid UTF-8 data.  Lowercasing is
modelled on ASCII letters (the identity elsewhere).  SQLite tables are
modelled as in-memory association structures, the filesystem as a partial map
from path strings to file contents, and the wall clock as an explicit
parameter threaded through each stateful operation.
-/

namespace AGOS

/-- Fallible code returns `Except`; equality of results is decidable so that
concrete runs can be checked by evaluation. -/
instance {ε α : Type} [DecidableEq ε] [DecidableEq α] : DecidableEq (Except ε α)
  | Except.ok a, Except.ok b =>
    if h : a = b then isTrue (by rw [h]) else isFalse (by simp [h])
  | Except.ok _, Except.error _ => isFalse (by simp)
  | Except.error _, Except.ok _ => isFalse (by simp)
  | Except.error e, Except.error f =>
    if h : e = f then isTrue (by rw [h]) else isFalse (by simp [h])

/-! ## Python string primitives -/

/-- The set of characters recognized as whitespace by Python's `str.strip`,
`str.split` and the regex class `\s` (identical sets on `str`). -/
def pyIsSpace (c : Char) : Bool :=
  let n := c.toNat
  (0x9 ≤ n && n ≤ 0xD) || (0x1C ≤ n && n ≤ 0x20) || n == 0x85 || n == 0xA0 ||
  n == 0x1680 || (0x2000 ≤ n && n ≤ 0x200A) || n == 0x2028 || n == 0x2029 ||
  n == 0x202F || n == 0x205F || n == 0x3000

/-- Python `str.strip()` (no argument): drop leading and trailing whitespace. -/
def pyStrip (l : List Char) : List Char :=
  ((l.dropWhile pyIsSpace).reverse.dropWhile pyIsSpace).reverse

/-- Python `str.lower()`, modelled on ASCII letters (identity on other
characters; the inputs the claims quantify over are ASCII). -/
def pyLowerChar (c : Char) : Char :=
  if c.toNat ≥ 0x41 && c.toNat ≤ 0x5A then Char.ofNat (c.toNat + 0x20) else c

def pyLower (l : List Char) : List Char := l.map pyLowerChar

/-- Python `str.split()` (no argument): split on whitespace runs, dropping
empty pieces (`acc` holds the current word, reversed). -/
def pySplitWsAux : List Char → List Char → List (List Char)
  | acc, [] => if acc.isEmpty then [] else [acc.reverse]
  | acc, c :: cs =>
    if pyIsSpace c then
      if acc.isEmpty then pySplitWsAux [] cs else acc.reverse :: pySplitWsAux [] cs
    else pySplitWsAux (c :: acc) cs

def pySplitWs (l : List Char) : List (List Char) := pySplitWsAux [] l

/-- Python `sep.join(pieces)` with `sep = " "`. -/
def joinSpace : List (List Char) → List Char
  | [] => []
  | [w] => w
  | w :: ws => w ++ ' ' :: joinSpace ws

/-- Python `sep.join(pieces)` with `sep = "/"` (path joining). -/
def joinSlash : List (List Char) → List Char
  | [] => []
  | [w] => w
  | w :: ws => w ++ '/' :: joinSlash ws

/-- Python `s.split(sep)` for a one-character separator (`''.split(sep)` is
`[''];` callers guard the empty case as CPython does). -/
def splitSep (sep : Char) : List Char → List (List Char)
  | [] => [[]]
  | c :: cs =>
    match splitSep sep cs with
    | [] => [[]]
    | h :: t => if c == sep then [] :: h :: t else (c :: h) :: t

/-- Python `s.split(sep, 1)` returning the two pieces when `sep` occurs. -/
def splitFirst (sep : Char) : List Char → Option (List Char × List Char)
  | [] => none
  | c :: cs =>
    if c == sep then some ([], cs)
    else
      match splitFirst sep cs with
      | none => none
      | some (a, b) => some (c :: a, b)

/-- Python `s.rstrip(chars)` for a one-character set. -/
def rstripChar (ch : Char) (l : List Char) : List Char :=
  (l.reverse.dropWhile (· == ch)).reverse

/-! ## `urllib.parse` model (CPython 3.11) -/

/-- The five components returned by `urllib.parse.urlsplit`. -/
structure SplitResult where
  scheme : List Char
  netloc : List Char
  path : List Char
  query : List Char
  fragment : List Char
deriving DecidableEq

/-- `urllib.parse.scheme_chars`. -/
def isSchemeChar (c : Char) : Bool :=
  (c.toNat ≥ 0x41 && c.toNat ≤ 0x5A) || (c.toNat ≥ 0x61 && c.toNat ≤ 0x7A) ||
  (c.toNat ≥ 0x30 && c.toNat ≤ 0x39) || c == '+' || c == '-' || c == '.'

def isAsciiAlpha (c : Char) : Bool :=
  (c.toNat ≥ 0x41 && c.toNat ≤ 0x5A) || (c.toNat ≥ 0x61 && c.toNat ≤ 0x7A)

/-- Scheme detection step of `urlsplit`: `i = url.find(':')`; if `i > 0`, the
first character is an ASCII letter, and every character before the colon is a
scheme character, split off the lowercased scheme. -/
def detectScheme (url : List Char) : List Char × List Char :=
  match url.findIdx? (· == ':') with
  | none => ([], url)
  | some i =>
    if 0 < i && (url.headD ' ' |> isAsciiAlpha) && (url.take i).all isSchemeChar then
      (pyLower (url.take i), url.drop (i + 1))
    else ([], url)

/-- `urllib.parse._splitnetloc(url, 2)` applied to `url.drop 2`: the netloc
runs until the first `/`, `?` or `#`. -/
def netlocDelim (c : Char) : Bool := c == '/' || c == '?' || c == '#'

/-- The `if url[:2] == '//'` block of `urlsplit`: split off the netloc and
raise `Invalid IPv6 URL` on an unbalanced square bracket. -/
def splitNetlocChecked (url2 : List Char) : Except String (List Char × List Char) :=
  if url2.take 2 = ['/', '/'] then
    let tail := url2.drop 2
    let netloc := tail.takeWhile (fun c => !netlocDelim c)
    let rest := tail.dropWhile (fun c => !netlocDelim c)
    if (netloc.contains '[' && !netloc.contains ']') ||
       (netloc.contains ']' && !netloc.contains '[') then
      Except.error "Invalid IPv6 URL"
    else Except.ok (netloc, rest)
  else Except.ok ([], url2)

/-- `urllib.parse.urlsplit(url)` with `allow_fragments=True`.  The only
modelled failure is the `Invalid IPv6 URL` `ValueError` raised for a netloc
containing an unbalanced square bracket; the bracketed-host validation
(`_check_bracketed_host`) and the NFKC check for non-ASCII netlocs
(`_checknetloc`) are not modelled (the theorems below restrict to
bracket-free ASCII authorities). -/
def urlsplit (url0 : List Char) : Except String SplitResult :=
  let url1 := (url0.dropWhile (fun c => c.toNat ≤ 0x20)).filter
    (fun c => !(c == '\t' || c == '\r' || c == '\n'))
  let (scheme, url2) := detectScheme url1
  match splitNetlocChecked url2 with
  | Except.error e => Except.error e
  | Except.ok (netloc, url3) =>
    let (url4, fragment) :=
      match splitFirst '#' url3 with
      | some (a, b) => (a, b)
      | none => (url3, [])
    let (path, query) :=
      match splitFirst '?' url4 with
      | some (a, b) => (a, b)
      | none => (url4, [])
    Except.ok ⟨scheme, netloc, path, query, fragment⟩

/-- Hexadecimal digit value, as accepted by `urllib.parse.unquote`. -/
def hexDigit? (c : Char) : Option Nat :=
  if c.toNat ≥ 0x30 && c.toNat ≤ 0x39 then some (c.toNat - 0x30)
  else if c.toNat ≥ 0x41 && c.toNat ≤ 0x46 then some (c.toNat - 0x41 + 10)
  else if c.toNat ≥ 0x61 && c.toNat ≤ 0x66 then some (c.toNat - 0x61 + 10)
  else none

/-- UTF-8 encoding of one Unicode scalar. -/
def utf8Bytes (c : Char) : List Nat :=
  let n := c.toNat
  if n < 0x80 then [n]
  else if n < 0x800 then
    [0xC0 + n / 0x40, 0x80 + n % 0x40]
  else if n < 0x10000 then
    [0xE0 + n / 0x1000, 0x80 + (n / 0x40) % 0x40, 0x80 + n % 0x40]
  else
    [0xF0 + n / 0x40000, 0x80 + (n / 0x1000) % 0x40, 0x80 + (n / 0x40) % 0x40,
     0x80 + n % 0x40]

/-- The `name.replace('+', ' ')` followed by `unquote(name)` steps of
`parse_qsl`, producing the UTF-8 bytes of the resulting `str`: `+` becomes a
space, `%XX` with two hex digits becomes the byte `XX`, anything else
contributes its UTF-8 encoding (a lone or ill-formed `%` stays literal, as in
CPython). -/
def unquotePlusAux : Nat → List Char → List Nat
  | 0, _ => []
  | _, [] => []
  | fuel + 1, c :: rest =>
    if c == '+' then 0x20 :: unquotePlusAux fuel rest
    else if c == '%' then
      match rest with
      | h1 :: h2 :: rest2 =>
        match hexDigit? h1, hexDigit? h2 with
        | some a, some b => (16 * a + b) :: unquotePlusAux fuel rest2
        | _, _ => 0x25 :: unquotePlusAux fuel (h1 :: h2 :: rest2)
      | _ => 0x25 :: unquotePlusAux fuel rest
    else utf8Bytes c ++ unquotePlusAux fuel rest

/-- Each step consumes at least one character and one unit of fuel, so fuel
equal to the length never runs out; the fuel only makes the recursion
structural. -/
def unquotePlus (l : List Char) : List Nat := unquotePlusAux l.length l

/-- `urllib.parse.parse_qsl(qs, keep_blank_values=True)`, with names and
values as UTF-8 byte sequences. -/
def parse_qsl (qs : List Char) : List (List Nat × List Nat) :=
  if qs.isEmpty then []
  else
    (splitSep '&' qs).filterMap fun nv =>
      if nv.isEmpty then none
      else
        match splitFirst '=' nv with
        | some (n, v) => some (unquotePlus n, unquotePlus v)
        | none => some (unquotePlus nv, [])

/-- The always-safe bytes of `urllib.parse.quote` (RFC 3986 unreserved:
ASCII letters, digits, `_.-~`); `urlencode`'s default `safe` is empty. -/
def isUrlSafeByte (b : Nat) : Bool :=
  (0x41 ≤ b && b ≤ 0x5A) || (0x61 ≤ b && b ≤ 0x7A) || (0x30 ≤ b && b ≤ 0x39) ||
  b == 0x5F || b == 0x2E || b == 0x2D || b == 0x7E

def hexUpperDigit (n : Nat) : Char :=
  if n < 10 then Char.ofNat (0x30 + n) else Char.ofNat (0x41 + n - 10)

/-- `urllib.parse.quote_plus` applied to the UTF-8 bytes of a `str`:
safe bytes pass through, a space becomes `+`, every other byte becomes
`%XX` with uppercase hex. -/
def quotePlusBytes (bs : List Nat) : List Char :=
  bs.flatMap fun b =>
    if isUrlSafeByte b then [Char.ofNat b]
    else if b == 0x20 then ['+']
    else ['%', hexUpperDigit (b / 16), hexUpperDigit (b % 16)]

/-- Strict lexicographic comparison of byte sequences; on valid UTF-8 data
this coincides with CPython's code-point comparison of the decoded strings. -/
def ltBytes : List Nat → List Nat → Bool
  | [], [] => false
  | [], _ :: _ => true
  | _ :: _, [] => false
  | a :: as, b :: bs => if a < b then true else if b < a then false else ltBytes as bs

/-- Python tuple comparison `(k1, v1) < (k2, v2)`. -/
def ltPair (p q : List Nat × List Nat) : Bool :=
  if ltBytes p.1 q.1 then true
  else if ltBytes q.1 p.1 then false
  else ltBytes p.2 q.2

/-- Stable insertion: `x` moves past exactly the elements strictly below it. -/
def insertLt {α : Type} (lt : α → α → Bool) (x : α) : List α → List α
  | [] => [x]
  | y :: ys => if lt y x then y :: insertLt lt x ys else x :: y :: ys

/-- Python `sorted` with comparison `lt`: a stable sort (insertion sort is
extensionally equal to CPython's stable sort for any strict weak order). -/
def pySorted {α : Type} (lt : α → α → Bool) : List α → List α
  | [] => []
  | x :: xs => insertLt lt x (pySorted lt xs)

/-- `urllib.parse.urlencode(pairs, doseq=True)` on string pairs: quote each
name and value and join `name=value` groups with `&`. -/
def urlencodePairs (pairs : List (List Nat × List Nat)) : List Char :=
  match pairs with
  | [] => []
  | [p] => quotePlusBytes p.1 ++ '=' :: quotePlusBytes p.2
  | p :: ps => (quotePlusBytes p.1 ++ '=' :: quotePlusBytes p.2) ++ '&' :: urlencodePairs ps

/-- `urllib.parse.uses_netloc`. -/
def usesNetloc : List (List Char) :=
  [[], "ftp".toList, "http".toList, "gopher".toList, "nntp".toList,
   "telnet".toList, "imap".toList, "wais".toList, "file".toList, "mms".toList,
   "https".toList, "shttp".toList, "snews".toList, "prospero".toList,
   "rtsp".toList, "rtsps".toList, "rtspu".toList, "rsync".toList,
   "svn".toList, "svn+ssh".toList, "sftp".toList, "nfs".toList,
   "git".toList, "git+ssh".toList, "ws".toList, "wss".toList]

/-- `urllib.parse.urlunsplit` (CPython 3.11, which re-adds `//` whenever the
scheme conventionally uses a netloc). -/
def urlunsplit (scheme netloc path query fragment : List Char) : List Char :=
  let url := path
  let url :=
    if !netloc.isEmpty ||
       (!scheme.isEmpty && usesNetloc.contains scheme && url.take 2 ≠ ['/', '/']) then
      let url := if !url.isEmpty && url.take 1 ≠ ['/'] then '/' :: url else url
      '/' :: '/' :: netloc ++ url
    else url
  let url := if !scheme.isEmpty then scheme ++ ':' :: url else url
  let url := if !query.isEmpty then url ++ '?' :: query else url
  let url := if !fragment.isEmpty then url ++ '#' :: fragment else url
  url

/-! ## Configuration (`agos/config.py`)

`bouncer_dedup_query_drop_keys` / `bouncer_dedup_query_drop_prefixes` read an
environment variable with a default, split on commas, strip and lowercase the
pieces and drop empties.  The environment is modelled as an optional string
parameter. -/

def parseCsvLowered (raw : String) : List (List Char) :=
  ((splitSep ',' raw.toList).filter (fun x => !(pyStrip x).isEmpty)).map
    (fun x => pyLower (pyStrip x))

/-- `agos.config.bouncer_dedup_query_drop_keys` (a Python `set`, modelled as
the list of its elements in insertion order; only membership is used). -/
def bouncer_dedup_query_drop_keys (env : Option String) : List (List Char) :=
  parseCsvLowered (env.getD "spm,from,igshid,fbclid,gclid,mc_cid,mc_eid,ref")

/-- `agos.config.bouncer_dedup_query_drop_prefixes`. -/
def bouncer_dedup_query_drop_prefixes (env : Option String) : List (List Char) :=
  parseCsvLowered (env.getD "utm_")

/-- ASCII lowercase on a byte, matching `str.lower` on the decoded ASCII
character. -/
def byteLower (b : Nat) : Nat :=
  if 0x41 ≤ b && b ≤ 0x5A then b + 0x20 else b

/-- UTF-8 bytes of a whole string (used to compare percent-decoded query
names against configured drop keys and prefixes). -/
def strBytes (s : String) : List Nat := s.toList.flatMap utf8Bytes

def bytesOfChars (l : List Char) : List Nat := l.flatMap utf8Bytes

/-! ## Dedup store (`agos/dedup_store.py`) -/

namespace DedupStore

/-- `DedupStore.normalize_title`: `" ".join(title.strip().lower().split())`. -/
def normalize_title (title : String) : String :=
  (joinSpace (pySplitWs (pyLower (pyStrip title.toList)))).asString

/-- `DedupStore.normalize_url`, parameterized by the configured drop keys and
drop prefixes (read by the source from `bouncer_dedup_query_drop_keys()` and
`bouncer_dedup_query_drop_prefixes()`).  Returns `(normalized, host)`; the
only modelled failure is the `ValueError` propagated from `urlsplit`. -/
def normalize_url (dropKeys dropPrefixes : List (List Char)) (url : String) :
    Except String (String × String) :=
  let raw := pyStrip url.toList
  if raw.isEmpty then Except.ok ("", "")
  else
    match urlsplit raw with
    | Except.error e => Except.error e
    | Except.ok parts =>
      let scheme := pyLower (if parts.scheme.isEmpty then "https".toList else parts.scheme)
      let host0 := pyLower parts.netloc
      let host := if host0.take 4 = "www.".toList then host0.drop 4 else host0
      let path0 := if parts.path.isEmpty then ['/'] else parts.path
      let path := if path0 = ['/'] then path0 else rstripChar '/' path0
      let keyBytes := dropKeys.map bytesOfChars
      let prefixBytes := dropPrefixes.map bytesOfChars
      let items := (parse_qsl parts.query).filter fun kv =>
        let low := kv.1.map byteLower
        if keyBytes.contains low then false
        else if prefixBytes.any (fun p => p.isPrefixOf low) then false
        else true
      let query := urlencodePairs (pySorted ltPair items)
      let normalized := urlunsplit scheme host path query []
      Except.ok (normalized.asString, host.asString)

/-- `DedupStore.build_key`: `(dedup_key, reason, normalized_url, host)`. -/
def build_key (dropKeys dropPrefixes : List (List Char)) (source_url title : String) :
    Except String (String × String × String × String) :=
  match normalize_url dropKeys dropPrefixes source_url with
  | Except.error e => Except.error e
  | Except.ok (normalized_url, host) =>
    let title_norm := normalize_title title
    if normalized_url ≠ "" then
      Except.ok ("src:" ++ normalized_url, "same_source", normalized_url, host)
    else
      Except.ok ("fallback:" ++ host ++ "|" ++ title_norm, "same_title_same_source",
        normalized_url, host)

/-- One row of the `dedup_entries` table.  `first_seen_at`/`last_seen_at` are
ISO-8601 text in SQLite, written from a monotone wall clock; they are
modelled as naturals ordered like the timestamps. -/
structure DedupEntry where
  dedup_key : String
  source_url : String
  title_norm : String
  source_host : String
  first_seen_at : Nat
  last_seen_at : Nat
  note_path : String
  version : Nat
deriving DecidableEq

/-- The `dedup_entries` table (`dedup_key` is the primary key; the SQL
`ON CONFLICT` update rewrites the existing row in place). -/
abbrev DedupTable := List DedupEntry

def findEntry (t : DedupTable) (k : String) : Option DedupEntry :=
  t.find? (fun e => e.dedup_key == k)

/-- `agos.dedup_store.DedupCheckResult`. -/
structure DedupCheckResult where
  exists? : Bool
  dedup_key : String
  reason : String
  normalized_url : String
  source_host : String
deriving DecidableEq

/-- `DedupStore.check`: read-only lookup. -/
def check (dropKeys dropPrefixes : List (List Char)) (t : DedupTable)
    (source_url title : String) : Except String DedupCheckResult :=
  match build_key dropKeys dropPrefixes source_url title with
  | Except.error e => Except.error e
  | Except.ok (dedup_key, reason, normalized_url, host) =>
    Except.ok ⟨(findEntry t dedup_key).isSome, dedup_key, reason, normalized_url, host⟩

/-- `DedupStore.upsert_seen`: insert a fresh row, or on a `dedup_key`
conflict overwrite the source fields and `last_seen_at`, keep
`first_seen_at` and `version`, and keep `note_path` unless the incoming
value is non-empty.  `now` is the wall-clock reading `datetime.now(UTC)`. -/
def upsert_seen (dropKeys dropPrefixes : List (List Char)) (t : DedupTable)
    (now : Nat) (source_url title : String) (note_path : String := "") :
    Except String (DedupTable × DedupCheckResult) :=
  match build_key dropKeys dropPrefixes source_url title with
  | Except.error e => Except.error e
  | Except.ok (dedup_key, reason, normalized_url, host) =>
    let title_norm := normalize_title title
    let t' :=
      if (findEntry t dedup_key).isSome then
        t.map fun e =>
          if e.dedup_key == dedup_key then
            { e with source_url := normalized_url, title_norm := title_norm,
                     source_host := host, last_seen_at := now,
                     note_path := if note_path ≠ "" then note_path else e.note_path }
          else e
      else
        t ++ [{ dedup_key := dedup_key, source_url := normalized_url,
                title_norm := title_norm, source_host := host,
                first_seen_at := now, last_seen_at := now,
                note_path := note_path, version := 1 }]
    Except.ok (t', ⟨true, dedup_key, reason, normalized_url, host⟩)

end DedupStore

/-! ## Offline resolver normalizers (`scripts/dedup_rss_inbox.py`) -/

namespace Script

/-- `_TRACKING_QUERY_PREFIXES = ("utm_",)`. -/
def trackingQueryPrefixes : List (List Char) := ["utm_".toList]

/-- `_TRACKING_QUERY_KEYS` (a Python `set` literal, modelled as the list of
its elements in literal order; only membership is used). -/
def trackingQueryKeys : List (List Char) :=
  ["spm".toList, "from".toList, "igshid".toList, "fbclid".toList,
   "gclid".toList, "mc_cid".toList, "mc_eid".toList, "ref".toList]

/-- `scripts.dedup_rss_inbox.normalize_title`:
`_WS_RE.sub(" ", title.strip().lower())` — every maximal whitespace run is
replaced by a single space (`prevWs` records whether the previous character
belonged to a run already replaced). -/
def wsCollapseAux : Bool → List Char → List Char
  | _, [] => []
  | prevWs, c :: cs =>
    if pyIsSpace c then
      if prevWs then wsCollapseAux true cs else ' ' :: wsCollapseAux true cs
    else c :: wsCollapseAux false cs

def normalize_title (title : String) : String :=
  (wsCollapseAux false (pyLower (pyStrip title.toList))).asString

/-- `scripts.dedup_rss_inbox.normalize_url` (hard-coded tracking sets; the
query loop tests the prefix tuple first, then the key set). -/
def normalize_url (url : String) : Except String (String × String) :=
  let raw := pyStrip url.toList
  if raw.isEmpty then Except.ok ("", "")
  else
    match urlsplit raw with
    | Except.error e => Except.error e
    | Except.ok parts =>
      let scheme := pyLower (if parts.scheme.isEmpty then "https".toList else parts.scheme)
      let host0 := pyLower parts.netloc
      let host := if host0.take 4 = "www.".toList then host0.drop 4 else host0
      let path0 := if parts.path.isEmpty then ['/'] else parts.path
      let path := if path0 = ['/'] then path0 else rstripChar '/' path0
      let keyBytes := trackingQueryKeys.map bytesOfChars
      let prefixBytes := trackingQueryPrefixes.map bytesOfChars
      let items := (parse_qsl parts.query).filter fun kv =>
        let low := kv.1.map byteLower
        if prefixBytes.any (fun p => p.isPrefixOf low) then false
        else if keyBytes.contains low then false
        else true
      let query := urlencodePairs (pySorted ltPair items)
      let normalized := urlunsplit scheme host path query []
      Except.ok (normalized.asString, host.asString)

/-! ### Duplicate resolver -/

/-- `scripts.dedup_rss_inbox.NoteMeta`.  `group_date` and `created` are
`datetime.date` values, modelled as naturals ordered chronologically;
`path` is the note path string (`pathlib.Path`, compared via `str`). -/
structure NoteMeta where
  path : String
  group_date : Nat
  created : Nat
  title : String
  normalized_title : String
  source : String
  normalized_source : String
  source_host : String
deriving DecidableEq

/-- `scripts.dedup_rss_inbox.DuplicateDecision`. -/
structure DuplicateDecision where
  keep : NoteMeta
  duplicate : NoteMeta
  key : String
  reason : String
deriving DecidableEq

/-- `scripts.dedup_rss_inbox.build_dedup_key`. -/
def build_dedup_key (note : NoteMeta) : String × String :=
  if note.normalized_source ≠ "" then
    ("src:" ++ note.normalized_source, "same_source")
  else
    ("fallback:" ++ note.source_host ++ "|" ++ note.normalized_title,
     "same_title_same_source")

/-- `scripts.dedup_rss_inbox.should_keep`: earlier `created` wins, ties
broken by lexicographically smaller `str(path)`. -/
def should_keep (candidate current_keep : NoteMeta) : Bool :=
  if candidate.created ≠ current_keep.created then
    decide (candidate.created < current_keep.created)
  else decide (candidate.path < current_keep.path)

/-- The `keepers: dict[str, NoteMeta]` map, as an association list in
insertion order (Python dict semantics: lookup by key, update in place). -/
abbrev Keepers := List (String × NoteMeta)

def keepersFind (m : Keepers) (k : String) : Option NoteMeta :=
  (m.find? (fun p => p.1 == k)).map (fun p => p.2)

def keepersSet (m : Keepers) (k : String) (v : NoteMeta) : Keepers :=
  if (m.find? (fun p => p.1 == k)).isSome then
    m.map (fun p => if p.1 == k then (k, v) else p)
  else m ++ [(k, v)]

/-- The sort key of `find_duplicates`: `(x.created, str(x.path))`,
compared as a Python tuple. -/
def ltNote (a b : NoteMeta) : Bool :=
  decide (a.created < b.created) ||
  (a.created == b.created && decide (a.path < b.path))

/-- The loop body of `find_duplicates` over the pre-sorted candidates. -/
def fdLoop : Keepers → List NoteMeta → List DuplicateDecision
  | _, [] => []
  | keepers, note :: rest =>
    let kr := build_dedup_key note
    match keepersFind keepers kr.1 with
    | none => fdLoop (keepersSet keepers kr.1 note) rest
    | some keep_note =>
      if should_keep note keep_note then
        ⟨note, keep_note, kr.1, kr.2⟩ :: fdLoop (keepersSet keepers kr.1 note) rest
      else
        ⟨keep_note, note, kr.1, kr.2⟩ :: fdLoop keepers rest

/-- `scripts.dedup_rss_inbox.find_duplicates` (Python's `sorted` is a stable
sort; `pySorted` with the strict tuple order is extensionally the same). -/
def find_duplicates (notes : List NoteMeta) : List DuplicateDecision :=
  fdLoop [] (pySorted ltNote notes)

/-! ### Apply mode: reversible archival -/

/-- Splitting a path string on `/` (for `Path.relative_to`, `.parent`,
`.stem`, `.suffix`). -/
def pathParts (p : String) : List (List Char) := splitSep '/' p.toList

/-- `pathlib` stem/suffix of a final path component: the suffix starts at the
last dot, unless that dot is the leading character or absent. -/
def stemSuffix (name : List Char) : List Char × List Char :=
  match (List.range name.length).filter (fun i => name.getD i ' ' == '.') with
  | [] => (name, [])
  | idxs =>
    let i := idxs.getLast!
    if i == 0 then (name, []) else (name.take i, name.drop i)

/-- `scripts.dedup_rss_inbox.archive_destination`.  The 8-hex-character SHA-1
digest of the relative path is abstracted as the injected function
`digest` (SHA-1 itself is out of the embedding's scope; the round-trip
theorems hypothesize the collision-freeness the hash is there to provide).
`Path` division drops `.` segments, so the relative parent is re-joined
directly. -/
def archive_destination (digest : String → String) (inbox_root path archive_root : String) :
    String :=
  let rel : List Char :=
    if (inbox_root.toList ++ ['/']).isPrefixOf path.toList then
      path.toList.drop (inbox_root.toList.length + 1)
    else path.toList
  let parts := splitSep '/' rel
  let parent := parts.dropLast
  let name := parts.getLastD []
  let ss := stemSuffix name
  let parentStr := if parent.isEmpty then [] else joinSlash parent ++ ['/']
  (archive_root.toList ++ ['/'] ++ parentStr ++ ss.1 ++ ['.'] ++
    (digest rel.asString).toList ++ ss.2).asString

end Script

/-! ## Filesystem model and manifest rollback
(`scripts/dedup_rss_inbox.py` apply mode, `scripts/rollback_dedup_manifest.py`) -/

namespace FsModel

/-- The filesystem, as a partial map from path strings to file contents. -/
abbrev Fs := String → Option String

/-- `shutil.move(src, dst)`: fails when the source is missing, otherwise the
content now lives at `dst` and is gone from `src`. -/
def fsMove (fs : Fs) (src dst : String) : Except String Fs :=
  match fs src with
  | none => Except.error "shutil.move: source missing"
  | some content =>
    Except.ok (fun p => if p = dst then some content else if p = src then none else fs p)

/-- One JSON line of the dedup manifest (`from`/`to` renamed: `from` is a
Lean keyword). -/
structure ManifestRow where
  fromPath : String
  toPath : String
  keep : String
  key : String
  reason : String
deriving DecidableEq

/-- The `--apply` loop of `scripts.dedup_rss_inbox.main`: move each
decision's duplicate to its archive destination (`move_duplicate`) and
append a manifest row.  `dest` is `archive_destination` applied to the
inbox and archive roots. -/
def applyMoves (dest : String → String) (fs : Fs) :
    List Script.DuplicateDecision → Except String (Fs × List ManifestRow)
  | [] => Except.ok (fs, [])
  | d :: rest =>
    let target := dest d.duplicate.path
    match fsMove fs d.duplicate.path target with
    | Except.error e => Except.error e
    | Except.ok fs2 =>
      match applyMoves dest fs2 rest with
      | Except.error e => Except.error e
      | Except.ok (fs3, rows) =>
        Except.ok (fs3, ⟨d.duplicate.path, target, d.keep.path, d.key, d.reason⟩ :: rows)

/-- The row loop of `scripts.rollback_dedup_manifest.main` with `--apply`:
an archived file still present is moved back (counted in `moved`), a missing
archived file is soft-skipped (its `[skip]` log line is collected, no error,
no move). -/
def rollbackLoop (fs : Fs) : List ManifestRow → Fs × Nat × List String
  | [] => (fs, 0, [])
  | row :: rest =>
    match fs row.toPath with
    | none =>
      let r := rollbackLoop fs rest
      (r.1, r.2.1, row.toPath :: r.2.2)
    | some content =>
      let fs2 : Fs := fun p =>
        if p = row.fromPath then some content
        else if p = row.toPath then none else fs p
      let r := rollbackLoop fs2 rest
      (r.1, r.2.1 + 1, r.2.2)

end FsModel

/-! ## Alert dedup/cooldown engine (`agos/notify.py`) -/

namespace Notify

/-- One row of the `alert_events` table (`last_sent_at`/`updated_at` are Unix
seconds, `int(time.time())`). -/
structure AlertRecord where
  last_state : String
  last_sent_at : Int
  last_channel : String
  last_trace_id : String
  updated_at : Int
deriving DecidableEq

/-- The `alert_events` table, keyed by its primary key `event_key`. -/
abbrev AlertTable := String → Option AlertRecord

def upsertAlert (t : AlertTable) (k : String) (r : AlertRecord) : AlertTable :=
  fun k2 => if k2 = k then some r else t k2

/-- One JSON line of the audit log; fields absent from a payload are `none`. -/
structure AuditLine where
  ts : Int
  component : Option String
  event_key : String
  level : String
  status : String
  state : Option String
  trace_id : Option String
  channel : Option String
  dedup_hit : Option Bool
deriving DecidableEq

/-- The configuration and collaborators read by `send_system_alert`:
the global switch, the startup-silence window, the process-start timestamp
(`_START_TS`), the cooldown, and the outbound transport `_route_send`
(returning `(ok, channel)`). -/
structure NotifyEnv where
  system_alerts_enabled : Bool
  startup_silence_minutes : Int
  start_ts : Int
  default_cooldown_minutes : Int
  route_send : String → Bool × String

/-- The `meta` dict argument (`state` defaults to `"fail"`, `trace_id` to
`""`, `component` to `"unknown"`). -/
structure AlertMeta where
  state : Option String := none
  trace_id : Option String := none
  component : Option String := none

/-- `agos.notify._in_startup_silence`. -/
def in_startup_silence (env : NotifyEnv) (now : Int) : Bool :=
  let silence_seconds := env.startup_silence_minutes * 60
  if silence_seconds ≤ 0 then false
  else decide (now - env.start_ts < silence_seconds)

/-- Result of one `send_system_alert` call: the returned boolean, the
`alert_events` table afterwards, and the audit lines written. -/
structure SendOutcome where
  result : Bool
  table : AlertTable
  audit : List AuditLine

/-- `agos.notify.send_system_alert`, over an explicit table, clock and
environment. -/
def send_system_alert (env : NotifyEnv) (table : AlertTable) (now : Int)
    (event_key level text : String) (meta : AlertMeta) : SendOutcome :=
  if !env.system_alerts_enabled then
    ⟨false, table,
     [⟨now, none, event_key, level, "suppressed_global_switch", none, none, none, none⟩]⟩
  else if in_startup_silence env now then
    ⟨false, table,
     [⟨now, none, event_key, level, "suppressed_startup_silence", none, none, none, none⟩]⟩
  else
    let state := meta.state.getD "fail"
    let trace_id := meta.trace_id.getD ""
    let component := meta.component.getD "unknown"
    let cooldown_sec := env.default_cooldown_minutes * 60
    let shouldSuppress :=
      match table event_key with
      | some r => state == r.last_state && decide (now - r.last_sent_at < cooldown_sec)
      | none => false
    if shouldSuppress then
      ⟨false, table,
       [⟨now, some component, event_key, level, "suppressed_dedup", some state,
         some trace_id, none, some true⟩]⟩
    else
      let sent := env.route_send text
      let table2 := upsertAlert table event_key
        ⟨state, now, sent.2, trace_id, now⟩
      ⟨sent.1, table2,
       [⟨now, some component, event_key, level,
         if sent.1 then "sent" else "send_failed", some state, some trace_id,
         some sent.2, some false⟩]⟩

end Notify

/-! ## Idempotent run tracker (`agents/daily_briefing/commit_digest_state.py`,
gate of `agents/daily_briefing/commit_digest.py::run_commit_digest`) -/

namespace Digest

/-- One row of the append-only `digest_runs` table (`created_at`/`updated_at`
ISO text modelled as naturals; the autoincrement `id` is the list position). -/
structure DigestRow where
  digest_key : String
  date : String
  timezone : String
  repos : String
  authors : String
  status : String
  trace_id : String
  commit_count : Nat
  chunk_count : Nat
  force_send : Bool
  created_at : Nat
  updated_at : Nat
  error_message : Option String
deriving DecidableEq

/-- The `digest_runs` table in `id` (insertion) order. -/
abbrev DigestRuns := List DigestRow

/-- `CommitDigestStateStore.is_success`: some row for the key has status
`success`. -/
def is_success (rows : DigestRuns) (digest_key : String) : Bool :=
  (rows.find? (fun r => r.digest_key == digest_key && r.status == "success")).isSome

/-- `CommitDigestStateStore.record`: always inserts a fresh row. -/
def record (rows : DigestRuns) (row : DigestRow) : DigestRuns := rows ++ [row]

/-- `CommitDigestStateStore.recent_failures`. -/
def recent_failures (rows : DigestRuns) (limit : Nat) : Nat :=
  let statuses := (rows.reverse.take limit).map (fun r => r.status)
  if statuses.length < limit then 0
  else if statuses.all (fun s => s == "failed") then limit else 0

/-- The idempotent-skip gate of `run_commit_digest` (lines 533-553): when a
`success` row already exists for the digest key and `force_send` is off, a
cheap `skipped` row is recorded (status `skipped`, zero counts, no error)
and the function returns 0 without the expensive work; otherwise the
expensive path (GitHub collection, rendering, sending, its own `record`) —
injected here as `work` — runs.  The third component reports whether the
expensive path ran. -/
def runDigestGate (rows : DigestRuns) (digest_key date_label tz repos authors trace_id : String)
    (force_send : Bool) (now : Nat) (work : DigestRuns → DigestRuns × Nat) :
    DigestRuns × Nat × Bool :=
  if is_success rows digest_key && !force_send then
    (record rows ⟨digest_key, date_label, tz, repos, authors, "skipped", trace_id,
                  0, 0, force_send, now, now, none⟩, 0, false)
  else
    let r := work rows
    (r.1, r.2, true)

end Digest

/-! ## Concrete fixtures used by the witnesses -/

/-- A concrete alert environment: switch on, 10-minute startup silence from
process start at 0, 30-minute cooldown, transport that succeeds over
`feishu`. -/
def envFix : Notify.NotifyEnv :=
  ⟨true, 10, 0, 30, fun _ => (true, "feishu")⟩

/-- The same environment with a transport that always fails. -/
def envFixDown : Notify.NotifyEnv :=
  ⟨true, 10, 0, 30, fun _ => (false, "feishu")⟩

/-- An empty alert table. -/
def emptyAlerts : Notify.AlertTable := fun _ => none

/-- A table holding one accepted `fail` send for key `job` at t = 1000. -/
def failAlerts : Notify.AlertTable := fun k =>
  if k = "job" then some ⟨"fail", 1000, "feishu", "tr1", 1000⟩ else none

/-! ## Theorems -/

/-- **C7** — For every call to `send_system_alert` made while the process is
inside the startup-silence window (and the global switch is on, which is
checked first), the call returns `False` and neither reads nor writes the
`alert_events` table — the outcome is the same function of the inputs for
every table, and the table comes back unchanged — while an audit line with
status `suppressed_startup_silence` is still written. -/
theorem send_system_alert_startup_silence (env : Notify.NotifyEnv) (now : Int)
    (event_key level text : String) (meta : Notify.AlertMeta)
    (henabled : env.system_alerts_enabled = true)
    (hsilence : Notify.in_startup_silence env now = true) :
    ∀ table : Notify.AlertTable,
      Notify.send_system_alert env table now event_key level text meta =
        ⟨false, table,
         [⟨now, none, event_key, level, "suppressed_startup_silence",
           none, none, none, none⟩]⟩ := by
  intro table
  simp [Notify.send_system_alert, henabled, hsilence]

/-- Witness for C7 at a concrete call 60 s after process start. -/
theorem send_system_alert_startup_silence_witness :
    Notify.send_system_alert envFix emptyAlerts 60 "job" "error" "boom" {} =
      ⟨false, emptyAlerts,
       [⟨60, none, "job", "error", "suppressed_startup_silence",
         none, none, none, none⟩]⟩ :=
  send_system_alert_startup_silence envFix 60 "job" "error" "boom" {}
    rfl (by decide) emptyAlerts

/-- The dedup-suppression condition of `send_system_alert`: a stored record
for the key, an equal state, and an elapsed time below the cooldown. -/
def Notify.dedupHit (env : Notify.NotifyEnv) (table : Notify.AlertTable)
    (now : Int) (event_key state : String) : Prop :=
  ∃ r, table event_key = some r ∧ r.last_state = state ∧
    now - r.last_sent_at < env.default_cooldown_minutes * 60

/-- **C3** — With the global switch on and outside the startup silence,
`send_system_alert` suppresses (returns `False`, leaves the table untouched,
audits `suppressed_dedup`) exactly when a stored record for the key has the
incoming state and is younger than the cooldown; hence a `fail` within the
cooldown of a stored `fail` returns `False`, while a `recover` after a
stored `fail` is never suppressed by that cooldown and returns `True` when
the transport delivers. -/
theorem send_system_alert_dedup_cooldown (env : Notify.NotifyEnv)
    (table : Notify.AlertTable) (now : Int) (event_key level text : String)
    (meta : Notify.AlertMeta)
    (henabled : env.system_alerts_enabled = true)
    (hsilence : Notify.in_startup_silence env now = false) :
    (((Notify.send_system_alert env table now event_key level text meta).result = false ∧
      (Notify.send_system_alert env table now event_key level text meta).table = table ∧
      (Notify.send_system_alert env table now event_key level text meta).audit.map
        (fun a => a.status) = ["suppressed_dedup"]) ↔
      Notify.dedupHit env table now event_key (meta.state.getD "fail")) ∧
    (∀ r, table event_key = some r → r.last_state = "fail" →
      meta.state.getD "fail" = "fail" →
      now - r.last_sent_at < env.default_cooldown_minutes * 60 →
      (Notify.send_system_alert env table now event_key level text meta).result = false) ∧
    (∀ r, table event_key = some r → r.last_state = "fail" →
      meta.state.getD "fail" = "recover" →
      (env.route_send text).1 = true →
      (Notify.send_system_alert env table now event_key level text meta).result = true) := by
  refine ⟨?_, ?_, ?_⟩
  · cases h : table event_key with
    | none =>
      rcases hok : env.route_send text with ⟨ok, ch⟩
      cases ok <;>
        simp [Notify.send_system_alert, henabled, hsilence, Notify.dedupHit, h, hok]
    | some r =>
      by_cases hs : meta.state.getD "fail" = r.last_state
      · by_cases hc : now - r.last_sent_at < env.default_cooldown_minutes * 60
        · constructor
          · intro _
            exact ⟨r, h, hs.symm, hc⟩
          · intro _
            simp [Notify.send_system_alert, henabled, hsilence, h, hs, hc]
        · rcases hok : env.route_send text with ⟨ok, ch⟩
          cases ok <;>
            simp [Notify.send_system_alert, henabled, hsilence, Notify.dedupHit,
              h, hok, hs, hc]
      · rcases hok : env.route_send text with ⟨ok, ch⟩
        cases ok <;>
          simp [Notify.send_system_alert, henabled, hsilence, Notify.dedupHit,
            h, hok, hs] <;>
          exact fun he => absurd he.symm hs
  · intro r hr hrs hms hc
    simp [Notify.send_system_alert, henabled, hsilence, hr, hms, hrs, hc]
  · intro r hr hrs hms hok
    simp [Notify.send_system_alert, henabled, hsilence, hr, hms, hrs, hok]

/-- Witness for C3: a second `fail` for `job` 1000 s after an accepted fail
(cooldown 1800 s) returns `False`; a `recover` in the same window returns
`True`. -/
theorem send_system_alert_dedup_cooldown_witness :
    (Notify.send_system_alert envFix failAlerts 2000 "job" "error" "t"
      ⟨some "fail", none, none⟩).result = false ∧
    (Notify.send_system_alert envFix failAlerts 2500 "job" "error" "t"
      ⟨some "recover", none, none⟩).result = true :=
  ⟨(send_system_alert_dedup_cooldown envFix failAlerts 2000 "job" "error" "t"
      ⟨some "fail", none, none⟩ rfl (by decide)).2.1
      ⟨"fail", 1000, "feishu", "tr1", 1000⟩ rfl rfl rfl (by decide),
   (send_system_alert_dedup_cooldown envFix failAlerts 2500 "job" "error" "t"
      ⟨some "recover", none, none⟩ rfl (by decide)).2.2
      ⟨"fail", 1000, "feishu", "tr1", 1000⟩ rfl rfl rfl rfl⟩

/-- **C4** — Whenever `send_system_alert` reaches the send step (switch on,
outside silence, no dedup hit), the `alert_events` row for the key is
upserted to `(state, now, channel, trace_id, now)` and one audit line with
status `sent` or `send_failed` is written, whatever the transport returned;
the call returns the transport's verdict, and a same-state call within the
cooldown of `now` is then suppressed — the cooldown anchors to the attempt,
also after a failed send. -/
theorem send_system_alert_persists_attempt (env : Notify.NotifyEnv)
    (table : Notify.AlertTable) (now : Int) (event_key level text : String)
    (meta : Notify.AlertMeta)
    (henabled : env.system_alerts_enabled = true)
    (hsilence : Notify.in_startup_silence env now = false)
    (hnohit : ∀ r, table event_key = some r →
      r.last_state = meta.state.getD "fail" →
      ¬(now - r.last_sent_at < env.default_cooldown_minutes * 60)) :
    (Notify.send_system_alert env table now event_key level text meta).table event_key =
      some ⟨meta.state.getD "fail", now, (env.route_send text).2,
            meta.trace_id.getD "", now⟩ ∧
    (Notify.send_system_alert env table now event_key level text meta).audit =
      [⟨now, some (meta.component.getD "unknown"), event_key, level,
        (if (env.route_send text).1 then "sent" else "send_failed"),
        some (meta.state.getD "fail"), some (meta.trace_id.getD ""),
        some (env.route_send text).2, some false⟩] ∧
    (Notify.send_system_alert env table now event_key level text meta).result =
      (env.route_send text).1 ∧
    (∀ (now2 : Int) (level2 text2 : String) (meta2 : Notify.AlertMeta),
      Notify.in_startup_silence env now2 = false →
      meta2.state.getD "fail" = meta.state.getD "fail" →
      now2 - now < env.default_cooldown_minutes * 60 →
      (Notify.send_system_alert env
        ((Notify.send_system_alert env table now event_key level text meta).table)
        now2 event_key level2 text2 meta2).result = false) := by
  have hsup : (match table event_key with
      | some r => (meta.state.getD "fail") == r.last_state &&
          decide (now - r.last_sent_at < env.default_cooldown_minutes * 60)
      | none => false) = false := by
    cases h : table event_key with
    | none => rfl
    | some r =>
      cases hbeq : (meta.state.getD "fail") == r.last_state with
      | false => simp [hbeq]
      | true =>
        simp only [hbeq, Bool.true_and]
        exact decide_eq_false (hnohit r h (beq_iff_eq.mp hbeq).symm)
  rcases hok : env.route_send text with ⟨ok, ch⟩
  have htab : (Notify.send_system_alert env table now event_key level text meta).table =
      Notify.upsertAlert table event_key
        ⟨meta.state.getD "fail", now, ch, meta.trace_id.getD "", now⟩ := by
    simp [Notify.send_system_alert, henabled, hsilence, hsup, hok]
  refine ⟨?_, ?_, ?_, ?_⟩
  · rw [htab]; simp [Notify.upsertAlert]
  · simp [Notify.send_system_alert, henabled, hsilence, hsup, hok]
  · simp [Notify.send_system_alert, henabled, hsilence, hsup, hok]
  · intro now2 level2 text2 meta2 hsil2 hst2 hcd2
    rw [htab]
    have hlook : Notify.upsertAlert table event_key
        ⟨meta.state.getD "fail", now, ch, meta.trace_id.getD "", now⟩ event_key =
        some ⟨meta.state.getD "fail", now, ch, meta.trace_id.getD "", now⟩ := by
      simp [Notify.upsertAlert]
    simp [Notify.send_system_alert, henabled, hsil2, hlook, hst2, hcd2]

/-- Witness for C4: with a failing transport and an empty table, the attempt
is persisted at t = 5000, the audit line says `send_failed`, the call
returns `False`, and a same-state call at t = 5100 is suppressed. -/
theorem send_system_alert_persists_attempt_witness :
    (Notify.send_system_alert envFixDown emptyAlerts 5000 "job" "error" "t"
      ⟨some "fail", some "tr9", some "scheduler"⟩).table "job" =
      some ⟨"fail", 5000, "feishu", "tr9", 5000⟩ ∧
    (Notify.send_system_alert envFixDown emptyAlerts 5000 "job" "error" "t"
      ⟨some "fail", some "tr9", some "scheduler"⟩).audit =
      [⟨5000, some "scheduler", "job", "error", "send_failed", some "fail",
        some "tr9", some "feishu", some false⟩] ∧
    (Notify.send_system_alert envFixDown emptyAlerts 5000 "job" "error" "t"
      ⟨some "fail", some "tr9", some "scheduler"⟩).result = false ∧
    (Notify.send_system_alert envFixDown
      ((Notify.send_system_alert envFixDown emptyAlerts 5000 "job" "error" "t"
        ⟨some "fail", some "tr9", some "scheduler"⟩).table)
      5100 "job" "error" "t2" ⟨some "fail", none, none⟩).result = false := by
  have h := send_system_alert_persists_attempt envFixDown emptyAlerts 5000
    "job" "error" "t" ⟨some "fail", some "tr9", some "scheduler"⟩ rfl (by decide)
    (fun r hr _ => absurd hr (by simp [emptyAlerts]))
  exact ⟨h.1, h.2.1, h.2.2.1, h.2.2.2 5100 "error" "t2" ⟨some "fail", none, none⟩
    (by decide) rfl (by decide)⟩

/-- **C6** — `is_success K` holds exactly when some `digest_runs` row for `K`
has status `success`; once it does, a run with `force_send = False`
short-circuits before the expensive work and appends a fresh `skipped` row,
while `force_send = True` bypasses the skip and runs the expensive path; and
`record` only ever appends — existing rows are never updated. -/
theorem digest_run_skip_gate (rows : Digest.DigestRuns)
    (digest_key date_label tz repos authors trace_id : String)
    (now : Nat) (work : Digest.DigestRuns → Digest.DigestRuns × Nat) :
    (Digest.is_success rows digest_key = true ↔
      ∃ r, r ∈ rows ∧ r.digest_key = digest_key ∧ r.status = "success") ∧
    (Digest.is_success rows digest_key = true →
      Digest.runDigestGate rows digest_key date_label tz repos authors trace_id
          false now work =
        (rows ++ [⟨digest_key, date_label, tz, repos, authors, "skipped", trace_id,
                   0, 0, false, now, now, none⟩], 0, false)) ∧
    (Digest.runDigestGate rows digest_key date_label tz repos authors trace_id
        true now work = ((work rows).1, (work rows).2, true)) ∧
    (∀ row, Digest.record rows row = rows ++ [row]) := by
  refine ⟨?_, ?_, ?_, fun _ => rfl⟩
  · simp [Digest.is_success, List.find?_isSome]
  · intro hs
    simp [Digest.runDigestGate, hs, Digest.record]
  · simp [Digest.runDigestGate]

/-- A recorded successful digest run for key `dk`. -/
def digestRowFix : Digest.DigestRow :=
  ⟨"dk", "2026-02-21", "Asia/Shanghai", "owner/repo", "*", "success", "tr1",
   5, 1, false, 100, 100, none⟩

/-- Witness for C6: after one `success` row for `dk`, `is_success` is true, a
`force_send = False` run only appends the cheap `skipped` row, and a
`force_send = True` run hands control to the expensive path. -/
theorem digest_run_skip_gate_witness :
    Digest.is_success [digestRowFix] "dk" = true ∧
    Digest.runDigestGate [digestRowFix] "dk" "2026-02-21" "Asia/Shanghai"
        "owner/repo" "*" "tr2" false 200 (fun rs => (rs, 7)) =
      ([digestRowFix,
        ⟨"dk", "2026-02-21", "Asia/Shanghai", "owner/repo", "*", "skipped", "tr2",
         0, 0, false, 200, 200, none⟩], 0, false) ∧
    Digest.runDigestGate [digestRowFix] "dk" "2026-02-21" "Asia/Shanghai"
        "owner/repo" "*" "tr2" true 200 (fun rs => (rs, 7)) =
      ([digestRowFix], 7, true) := by
  have h := digest_run_skip_gate [digestRowFix] "dk" "2026-02-21" "Asia/Shanghai"
    "owner/repo" "*" "tr2" 200 (fun rs => (rs, 7))
  have hsucc : Digest.is_success [digestRowFix] "dk" = true :=
    h.1.mpr ⟨digestRowFix, by simp, rfl, rfl⟩
  exact ⟨hsucc, h.2.1 hsucc, h.2.2.1⟩

/-- **C8 counterexample** — `normalize_url` is not total: on
`"https://["` (an authority with an unbalanced bracket) CPython's
`urlsplit` raises `ValueError("Invalid IPv6 URL")`, which propagates out of
`normalize_url`, so the claimed `("", "")`-degradation does not happen. -/
theorem normalize_url_raises_on_unbalanced_bracket :
    DedupStore.normalize_url (bouncer_dedup_query_drop_keys none)
      (bouncer_dedup_query_drop_prefixes none) "https://[" =
      Except.error "Invalid IPv6 URL" := by decide

/-- The only failure of the embedded `urlsplit` is the unbalanced-bracket
`ValueError`. -/
theorem urlsplit_ok_or_ipv6_error (l : List Char) :
    (∃ p, urlsplit l = Except.ok p) ∨ urlsplit l = Except.error "Invalid IPv6 URL" := by
  have hnet : ∀ (u : List Char) (e : String),
      splitNetlocChecked u = Except.error e → e = "Invalid IPv6 URL" := by
    intro u e h
    unfold splitNetlocChecked at h
    split at h
    · dsimp only at h
      split at h
      · exact (Except.error.injEq _ _ ▸ h).symm
      · exact Except.noConfusion h
    · exact Except.noConfusion h
  cases h : urlsplit l with
  | ok p => exact Or.inl ⟨p, rfl⟩
  | error e =>
    refine Or.inr ?_
    unfold urlsplit at h
    rcases hds : detectScheme ((l.dropWhile (fun c => c.toNat ≤ 0x20)).filter
        (fun c => !(c == '\t' || c == '\r' || c == '\n'))) with ⟨scheme, url2⟩
    simp only [hds] at h
    cases hq : splitNetlocChecked url2 with
    | ok q =>
      rcases q with ⟨netloc, url3⟩
      simp only [hq] at h
      exact Except.noConfusion h
    | error e2 =>
      simp only [hq] at h
      have := hnet url2 e2 hq
      simp only [Except.error.injEq] at h
      rw [← h, this]

/-- **C8 amended** — `normalize_url` never raises *except* when the
authority fails `urlsplit`'s host validation (an unbalanced square bracket
in the embedding), in which case the `ValueError` propagates; on every
other input it returns a pair, and empty input still yields `("", "")`. -/
theorem normalize_url_total_amended (dropKeys dropPrefixes : List (List Char))
    (url : String) :
    DedupStore.normalize_url dropKeys dropPrefixes "" = Except.ok ("", "") ∧
    ((∃ p, DedupStore.normalize_url dropKeys dropPrefixes url = Except.ok p) ∨
      DedupStore.normalize_url dropKeys dropPrefixes url =
        Except.error "Invalid IPv6 URL") := by
  constructor
  · rfl
  · cases hn : DedupStore.normalize_url dropKeys dropPrefixes url with
    | ok p => exact Or.inl ⟨p, rfl⟩
    | error e =>
      refine Or.inr ?_
      unfold DedupStore.normalize_url at hn
      by_cases hraw : (pyStrip url.toList).isEmpty = true
      · simp only [hraw, if_true] at hn
        exact Except.noConfusion hn
      · simp only [hraw, if_false, Bool.false_eq_true] at hn
        rcases urlsplit_ok_or_ipv6_error (pyStrip url.toList) with
          ⟨⟨sc, nl, pa, qu, fr⟩, hp⟩ | hp
        · simp only [hp] at hn
          exact Except.noConfusion hn
        · simp only [hp] at hn
          simp only [Except.error.injEq] at hn
          rw [← hn]

/-! ### Dedup-table helper lemmas for C2 -/

/-- A key-preserving in-place row update commutes with the primary-key
lookup. -/
theorem findEntry_map_update (t : DedupStore.DedupTable) (k : String)
    (f : DedupStore.DedupEntry → DedupStore.DedupEntry)
    (hf : ∀ e, (f e).dedup_key = e.dedup_key) :
    DedupStore.findEntry
        (t.map fun e => if e.dedup_key == k then f e else e) k =
      (DedupStore.findEntry t k).map f := by
  induction t with
  | nil => rfl
  | cons e rest ih =>
    simp only [List.map_cons]
    by_cases he : (e.dedup_key == k) = true
    · have hfe : ((f e).dedup_key == k) = true := by rw [hf]; exact he
      rw [if_pos he]
      show List.find? _ _ = Option.map f (List.find? _ _)
      simp [List.find?_cons, hfe, he]
    · have hef : (e.dedup_key == k) = false := by rwa [Bool.not_eq_true] at he
      rw [if_neg he]
      show List.find? _ _ = Option.map f (List.find? _ _)
      simp only [List.find?_cons, hef]
      exact ih

/-- A key-preserving in-place row update does not change how many rows carry
a given key. -/
theorem filter_length_map_update (t : DedupStore.DedupTable) (k : String)
    (f : DedupStore.DedupEntry → DedupStore.DedupEntry)
    (hf : ∀ e, (f e).dedup_key = e.dedup_key) :
    ((t.map fun e => if e.dedup_key == k then f e else e).filter
        (fun e => e.dedup_key == k)).length =
      (t.filter (fun e => e.dedup_key == k)).length := by
  induction t with
  | nil => rfl
  | cons e rest ih =>
    simp only [List.map_cons]
    by_cases he : (e.dedup_key == k) = true
    · have hfe : ((f e).dedup_key == k) = true := by rw [hf]; exact he
      rw [if_pos he, List.filter_cons, List.filter_cons, hfe, he, if_pos rfl,
        if_pos rfl, List.length_cons, List.length_cons, ih]
    · have hef : (e.dedup_key == k) = false := by rwa [Bool.not_eq_true] at he
      rw [if_neg he, List.filter_cons, List.filter_cons, hef,
        if_neg Bool.false_ne_true, if_neg Bool.false_ne_true, ih]

/-- A present key is carried by exactly one row of a table whose keys are
pairwise distinct. -/
theorem filter_length_of_nodup (t : DedupStore.DedupTable) (k : String)
    (hnodup : List.Pairwise (fun a b => a.dedup_key ≠ b.dedup_key) t)
    (hsome : (DedupStore.findEntry t k).isSome) :
    (t.filter (fun e => e.dedup_key == k)).length = 1 := by
  induction t with
  | nil => simp [DedupStore.findEntry] at hsome
  | cons e rest ih =>
    by_cases he : e.dedup_key == k
    · have hk := beq_iff_eq.mp he
      have hrest : (rest.filter (fun e => e.dedup_key == k)).length = 0 := by
        rw [List.length_eq_zero, List.filter_eq_nil_iff]
        intro x hx
        have := (List.pairwise_cons.mp hnodup).1 x hx
        rw [hk] at this
        simpa using fun hxk => this (beq_iff_eq.mp hxk).symm
      simp [List.filter, he, hrest]
    · simp only [DedupStore.findEntry, List.find?, he] at hsome
      simp [List.filter, he,
        ih (List.pairwise_cons.mp hnodup).2 hsome]

/-- An absent key is carried by no row. -/
theorem filter_length_of_none (t : DedupStore.DedupTable) (k : String)
    (hnone : DedupStore.findEntry t k = none) :
    (t.filter (fun e => e.dedup_key == k)).length = 0 := by
  rw [List.length_eq_zero, List.filter_eq_nil_iff]
  intro x hx
  have := List.find?_eq_none.mp hnone x hx
  simpa using this

/-- Appending a row for a previously absent key makes it the lookup result. -/
theorem findEntry_append_single (t : DedupStore.DedupTable)
    (e : DedupStore.DedupEntry) (k : String)
    (hnone : DedupStore.findEntry t k = none)
    (he : (e.dedup_key == k) = true) :
    DedupStore.findEntry (t ++ [e]) k = some e := by
  have hnone2 : List.find? (fun x => x.dedup_key == k) t = none := hnone
  show List.find? _ _ = some e
  rw [List.find?_append, hnone2, Option.none_or]
  simp [List.find?_cons, he]

/-- One `upsert_seen` call, observed at its dedup key: on a hit the row is
rewritten in place (source fields and `last_seen_at` from the call,
`first_seen_at` and `version` kept, `note_path` kept unless the incoming
value is non-empty) and the number of rows for the key is unchanged; on a
miss a fresh row is appended. -/
theorem upsert_seen_step (dropKeys dropPrefixes : List (List Char))
    (t : DedupStore.DedupTable) (tn : Nat) (url title np : String)
    (T : DedupStore.DedupTable) (c : DedupStore.DedupCheckResult)
    (k reason nu host : String)
    (hkey : DedupStore.build_key dropKeys dropPrefixes url title =
      Except.ok (k, reason, nu, host))
    (h : DedupStore.upsert_seen dropKeys dropPrefixes t tn url title np =
      Except.ok (T, c)) :
    (∀ e0, DedupStore.findEntry t k = some e0 →
      DedupStore.findEntry T k =
        some { e0 with source_url := nu,
                       title_norm := DedupStore.normalize_title title,
                       source_host := host, last_seen_at := tn,
                       note_path := if np ≠ "" then np else e0.note_path } ∧
      (T.filter (fun e => e.dedup_key == k)).length =
        (t.filter (fun e => e.dedup_key == k)).length) ∧
    (DedupStore.findEntry t k = none →
      DedupStore.findEntry T k =
        some ⟨k, nu, DedupStore.normalize_title title, host, tn, tn, np, 1⟩ ∧
      (T.filter (fun e => e.dedup_key == k)).length =
        (t.filter (fun e => e.dedup_key == k)).length + 1) := by
  simp only [DedupStore.upsert_seen, hkey, Except.ok.injEq, Prod.mk.injEq] at h
  obtain ⟨hT, -⟩ := h
  subst hT
  constructor
  · intro e0 he0
    have hc : (DedupStore.findEntry t k).isSome = true := by rw [he0]; rfl
    rw [if_pos hc]
    constructor
    · rw [findEntry_map_update t k
        (fun e => { e with source_url := nu,
                           title_norm := DedupStore.normalize_title title,
                           source_host := host, last_seen_at := tn,
                           note_path := if np ≠ "" then np else e.note_path })
        (fun _ => rfl), he0]
      rfl
    · exact filter_length_map_update t k
        (fun e => { e with source_url := nu,
                           title_norm := DedupStore.normalize_title title,
                           source_host := host, last_seen_at := tn,
                           note_path := if np ≠ "" then np else e.note_path })
        (fun _ => rfl)
  · intro hnone
    have hc : ¬((DedupStore.findEntry t k).isSome = true) := by
      rw [hnone]; exact Bool.false_ne_true
    rw [if_neg hc]
    constructor
    · exact findEntry_append_single t _ k hnone (beq_self_eq_true k)
    · rw [List.filter_append, List.length_append]
      simp [List.filter_cons]

/-- **C2** — Calling `upsert_seen` twice with identical `(url, title)` leaves
exactly one row for the derived dedup key; the second call keeps
`first_seen_at`, strictly advances `last_seen_at` (the injected wall clock
moves forward between the calls), overwrites the source fields with the
normalized values, and keeps the stored `note_path` unless the incoming
value is non-empty. -/
theorem upsert_seen_idempotent (dropKeys dropPrefixes : List (List Char))
    (t0 : DedupStore.DedupTable) (t1 t2 : Nat) (url title np : String)
    (T1 T2 : DedupStore.DedupTable) (c1 c2 : DedupStore.DedupCheckResult)
    (k reason nu host : String)
    (hkey : DedupStore.build_key dropKeys dropPrefixes url title =
      Except.ok (k, reason, nu, host))
    (hnodup : List.Pairwise (fun a b => a.dedup_key ≠ b.dedup_key) t0)
    (hlt : t1 < t2)
    (h1 : DedupStore.upsert_seen dropKeys dropPrefixes t0 t1 url title np =
      Except.ok (T1, c1))
    (h2 : DedupStore.upsert_seen dropKeys dropPrefixes T1 t2 url title np =
      Except.ok (T2, c2)) :
    (T2.filter (fun e => e.dedup_key == k)).length = 1 ∧
    ∃ r1 r2, DedupStore.findEntry T1 k = some r1 ∧
      DedupStore.findEntry T2 k = some r2 ∧
      r2.first_seen_at = r1.first_seen_at ∧
      r1.last_seen_at = t1 ∧ r2.last_seen_at = t2 ∧
      r1.last_seen_at < r2.last_seen_at ∧
      r2.source_url = nu ∧ r2.title_norm = DedupStore.normalize_title title ∧
      r2.source_host = host ∧
      r2.note_path = (if np ≠ "" then np else r1.note_path) := by
  have step1 := upsert_seen_step dropKeys dropPrefixes t0 t1 url title np T1 c1
    k reason nu host hkey h1
  have step2 := upsert_seen_step dropKeys dropPrefixes T1 t2 url title np T2 c2
    k reason nu host hkey h2
  cases he0 : DedupStore.findEntry t0 k with
  | some e0 =>
    obtain ⟨hfind1, hcnt1⟩ := step1.1 e0 he0
    obtain ⟨hfind2, hcnt2⟩ := step2.1 _ hfind1
    refine ⟨?_, _, _, hfind1, hfind2, rfl, rfl, rfl, hlt, rfl, rfl, rfl, rfl⟩
    rw [hcnt2, hcnt1]
    exact filter_length_of_nodup t0 k hnodup (by rw [he0]; rfl)
  | none =>
    obtain ⟨hfind1, hcnt1⟩ := step1.2 he0
    obtain ⟨hfind2, hcnt2⟩ := step2.1 _ hfind1
    refine ⟨?_, _, _, hfind1, hfind2, rfl, rfl, rfl, hlt, rfl, rfl, rfl, rfl⟩
    rw [hcnt2, hcnt1, filter_length_of_none t0 k he0]

/-- The row after the first witness upsert (t = 10). -/
def entryT1 : DedupStore.DedupEntry :=
  ⟨"src:https://x.com/a", "https://x.com/a", "my title", "x.com", 10, 10, "", 1⟩

/-- The row after the second witness upsert (t = 20): only `last_seen_at`
moved. -/
def entryT2 : DedupStore.DedupEntry :=
  ⟨"src:https://x.com/a", "https://x.com/a", "my title", "x.com", 10, 20, "", 1⟩

/-- Witness for C2: two identical upserts into an empty table at t = 10 and
t = 20. -/
theorem upsert_seen_idempotent_witness :
    (([entryT2] : DedupStore.DedupTable).filter
      (fun e => e.dedup_key == "src:https://x.com/a")).length = 1 ∧
    ∃ r1 r2, DedupStore.findEntry [entryT1] "src:https://x.com/a" = some r1 ∧
      DedupStore.findEntry [entryT2] "src:https://x.com/a" = some r2 ∧
      r2.first_seen_at = r1.first_seen_at ∧
      r1.last_seen_at = 10 ∧ r2.last_seen_at = 20 ∧
      r1.last_seen_at < r2.last_seen_at ∧
      r2.source_url = "https://x.com/a" ∧
      r2.title_norm = DedupStore.normalize_title "  My  Title " ∧
      r2.source_host = "x.com" ∧
      r2.note_path = (if ("" : String) ≠ "" then "" else r1.note_path) :=
  upsert_seen_idempotent (bouncer_dedup_query_drop_keys none)
    (bouncer_dedup_query_drop_prefixes none) [] 10 20
    "https://x.com/a?utm_source=y" "  My  Title " "" [entryT1] [entryT2]
    ⟨true, "src:https://x.com/a", "same_source", "https://x.com/a", "x.com"⟩
    ⟨true, "src:https://x.com/a", "same_source", "https://x.com/a", "x.com"⟩
    "src:https://x.com/a" "same_source" "https://x.com/a" "x.com"
    (by decide) List.Pairwise.nil (by decide) (by decide) (by decide)

/-! ### Filesystem lemmas for C5 -/

/-- The manifest row the apply loop writes for one decision. -/
def rowOf (dest : String → String) (d : Script.DuplicateDecision) : FsModel.ManifestRow :=
  ⟨d.duplicate.path, dest d.duplicate.path, d.keep.path, d.key, d.reason⟩

/-- Effect of the apply loop: every duplicate's content now lives at its
archive destination, the duplicate's own path is empty, every other path is
untouched, and the manifest lists one row per decision in order.  Requires
the duplicates to exist, the destinations to be fresh, and both path lists
to be collision-free (which the 8-hex-digest naming is there to provide). -/
theorem applyMoves_spec (dest : String → String) :
    ∀ (decisions : List Script.DuplicateDecision) (fs : FsModel.Fs),
    (∀ d ∈ decisions, (fs d.duplicate.path).isSome = true) →
    (∀ d ∈ decisions, fs (dest d.duplicate.path) = none) →
    (decisions.map (fun d => d.duplicate.path)).Nodup →
    (decisions.map (fun d => dest d.duplicate.path)).Nodup →
    ∃ fs1,
      FsModel.applyMoves dest fs decisions =
        Except.ok (fs1, decisions.map (rowOf dest)) ∧
      (∀ d ∈ decisions, fs1 (dest d.duplicate.path) = fs d.duplicate.path ∧
        fs1 d.duplicate.path = none) ∧
      (∀ p, (∀ d ∈ decisions, p ≠ d.duplicate.path ∧ p ≠ dest d.duplicate.path) →
        fs1 p = fs p) := by
  intro decisions
  induction decisions with
  | nil =>
    intro fs _ _ _ _
    exact ⟨fs, rfl, by simp, fun p _ => rfl⟩
  | cons d rest ih =>
    intro fs hex hfresh hdnd htnd
    obtain ⟨content, hcontent⟩ := Option.isSome_iff_exists.mp (hex d (by simp))
    have hdup_ne_tgt : ∀ d2 ∈ d :: rest, ∀ d3 ∈ d :: rest,
        d2.duplicate.path ≠ dest d3.duplicate.path := by
      intro d2 h2 d3 h3 heq
      have h2s := hex d2 h2
      rw [heq, hfresh d3 h3] at h2s
      exact Bool.false_ne_true h2s
    rw [List.map_cons, List.nodup_cons] at hdnd htnd
    set fs2 : FsModel.Fs := fun p =>
      if p = dest d.duplicate.path then some content
      else if p = d.duplicate.path then none else fs p with hfs2
    have hfs2at : ∀ q, fs2 q =
        if q = dest d.duplicate.path then some content
        else if q = d.duplicate.path then none else fs q := fun _ => rfl
    have hfs2dup : ∀ d2 ∈ rest, fs2 d2.duplicate.path = fs d2.duplicate.path := by
      intro d2 h2
      rw [hfs2at, if_neg (hdup_ne_tgt d2 (by simp [h2]) d (by simp)),
        if_neg (fun heq => hdnd.1 (by rw [← heq]; exact List.mem_map_of_mem _ h2))]
    have hfs2tgt : ∀ d2 ∈ rest, fs2 (dest d2.duplicate.path) = none := by
      intro d2 h2
      rw [hfs2at,
        if_neg (fun heq => htnd.1 (by rw [← heq]; exact List.mem_map_of_mem _ h2)),
        if_neg (fun heq => hdup_ne_tgt d (by simp) d2 (by simp [h2]) heq.symm)]
      exact hfresh d2 (by simp [h2])
    obtain ⟨fs3, happly, hmoved, hframe⟩ := ih fs2
      (fun d2 h2 => by rw [hfs2dup d2 h2]; exact hex d2 (by simp [h2]))
      hfs2tgt hdnd.2 htnd.2
    refine ⟨fs3, ?_, ?_, ?_⟩
    · show FsModel.applyMoves dest fs (d :: rest) = _
      unfold FsModel.applyMoves
      dsimp only
      rw [show FsModel.fsMove fs d.duplicate.path (dest d.duplicate.path) =
          Except.ok fs2 by unfold FsModel.fsMove; rw [hcontent]]
      simp only [happly, List.map_cons]
      rfl
    · intro d2 h2
      rcases List.mem_cons.mp h2 with rfl | h2r
      · constructor
        · rw [hframe (dest d2.duplicate.path)
            (fun d3 h3 => ⟨fun heq => hdup_ne_tgt d3 (by simp [h3]) d2 (by simp) heq.symm,
              fun heq => htnd.1 (by rw [heq]; exact List.mem_map_of_mem _ h3)⟩)]
          rw [hfs2at, if_pos rfl, hcontent]
        · rw [hframe d2.duplicate.path
            (fun d3 h3 => ⟨fun heq => hdnd.1 (by rw [heq]; exact List.mem_map_of_mem _ h3),
              hdup_ne_tgt d2 (by simp) d3 (by simp [h3])⟩)]
          rw [hfs2at, if_neg (hdup_ne_tgt d2 (by simp) d2 (by simp)), if_pos rfl]
      · obtain ⟨ha, hb⟩ := hmoved d2 h2r
        exact ⟨ha.trans (hfs2dup d2 h2r), hb⟩
    · intro p hp
      rw [hframe p (fun d3 h3 => hp d3 (by simp [h3]))]
      rw [hfs2at, if_neg (hp d (by simp)).2, if_neg (hp d (by simp)).1]

/-- Effect of one apply-mode rollback run when every archived file is still
present and the manifest paths are collision-free: every row's content moves
back from `toPath` to `fromPath`, everything else is untouched, all rows are
moved and none is skipped. -/
theorem rollbackLoop_spec :
    ∀ (rows : List FsModel.ManifestRow) (g : FsModel.Fs),
    (∀ r ∈ rows, (g r.toPath).isSome = true) →
    (rows.map (fun r => r.toPath)).Nodup →
    (rows.map (fun r => r.fromPath)).Nodup →
    (∀ r ∈ rows, ∀ s ∈ rows, r.fromPath ≠ s.toPath) →
    (FsModel.rollbackLoop g rows).2.1 = rows.length ∧
    (FsModel.rollbackLoop g rows).2.2 = [] ∧
    (∀ r ∈ rows, (FsModel.rollbackLoop g rows).1 r.fromPath = g r.toPath ∧
      (FsModel.rollbackLoop g rows).1 r.toPath = none) ∧
    (∀ p, (∀ r ∈ rows, p ≠ r.fromPath ∧ p ≠ r.toPath) →
      (FsModel.rollbackLoop g rows).1 p = g p) := by
  intro rows
  induction rows with
  | nil =>
    intro g _ _ _ _
    exact ⟨rfl, rfl, by simp, fun p _ => rfl⟩
  | cons row rest ih =>
    intro g hex htnd hfnd hdisj
    obtain ⟨content, hcontent⟩ := Option.isSome_iff_exists.mp (hex row (by simp))
    rw [List.map_cons, List.nodup_cons] at htnd hfnd
    set g2 : FsModel.Fs := fun p =>
      if p = row.fromPath then some content
      else if p = row.toPath then none else g p with hg2
    have hg2at : ∀ q, g2 q =
        if q = row.fromPath then some content
        else if q = row.toPath then none else g q := fun _ => rfl
    have hg2to : ∀ r ∈ rest, g2 r.toPath = g r.toPath := by
      intro r h2
      rw [hg2at,
        if_neg (fun heq => hdisj row (by simp) r (by simp [h2]) heq.symm),
        if_neg (fun heq => htnd.1 (by rw [← heq]; exact List.mem_map_of_mem _ h2))]
    have hloop : FsModel.rollbackLoop g (row :: rest) =
        ((FsModel.rollbackLoop g2 rest).1, (FsModel.rollbackLoop g2 rest).2.1 + 1,
         (FsModel.rollbackLoop g2 rest).2.2) := by
      conv_lhs => unfold FsModel.rollbackLoop; rw [hcontent]
    obtain ⟨hmoved, hskip, hback, hframe⟩ := ih g2
      (fun r h2 => by rw [hg2to r h2]; exact hex r (by simp [h2]))
      htnd.2 hfnd.2
      (fun r h2 s h3 => hdisj r (by simp [h2]) s (by simp [h3]))
    rw [hloop]
    refine ⟨by simp [hmoved], by simp [hskip], ?_, ?_⟩
    · intro r h2
      rcases List.mem_cons.mp h2 with rfl | h2r
      · constructor
        · show (FsModel.rollbackLoop g2 rest).1 _ = _
          rw [hframe r.fromPath
            (fun s h3 => ⟨fun heq => hfnd.1 (by rw [heq]; exact List.mem_map_of_mem _ h3),
              fun heq => hdisj r (by simp) s (by simp [h3]) heq⟩)]
          rw [hg2at, if_pos rfl, hcontent]
        · show (FsModel.rollbackLoop g2 rest).1 _ = _
          rw [hframe r.toPath
            (fun s h3 => ⟨fun heq => hdisj s (by simp [h3]) r (by simp) heq.symm,
              fun heq => htnd.1 (by rw [heq]; exact List.mem_map_of_mem _ h3)⟩)]
          rw [hg2at, if_neg (fun heq => hdisj r (by simp) r (by simp) heq.symm),
            if_pos rfl]
      · obtain ⟨ha, hb⟩ := hback r h2r
        exact ⟨ha.trans (hg2to r h2r), hb⟩
    · intro p hp
      show (FsModel.rollbackLoop g2 rest).1 _ = _
      rw [hframe p (fun s h3 => hp s (by simp [h3]))]
      rw [hg2at, if_neg (hp row (by simp)).1, if_neg (hp row (by simp)).2]

/-- A rollback run over a manifest whose archived files are all absent is a
no-op: nothing moves and every row is soft-skipped in order. -/
theorem rollbackLoop_all_missing :
    ∀ (rows : List FsModel.ManifestRow) (g : FsModel.Fs),
    (∀ r ∈ rows, g r.toPath = none) →
    FsModel.rollbackLoop g rows = (g, 0, rows.map (fun r => r.toPath)) := by
  intro rows
  induction rows with
  | nil => intro g _; rfl
  | cons row rest ih =>
    intro g hmiss
    have h1 : FsModel.rollbackLoop g (row :: rest) =
        ((FsModel.rollbackLoop g rest).1, (FsModel.rollbackLoop g rest).2.1,
         row.toPath :: (FsModel.rollbackLoop g rest).2.2) := by
      conv_lhs => unfold FsModel.rollbackLoop; rw [hmiss row (List.mem_cons_self row rest)]
    rw [h1, ih g (fun r h2 => hmiss r (by simp [h2]))]
    rfl

/-- **C5** — For every manifest emitted by the resolver's apply mode (one row
per decision, in order), one rollback run moves each archived file back to
its original path and restores the original file set and content exactly
(every path maps to its original content), with all rows moved and none
skipped; a second rollback run on the same manifest is a no-op: every row's
archived file is now absent, so it is soft-skipped (logged and counted, no
error, no file moved).  The hypotheses are the collision-freeness the
8-hex-digest archive naming provides and the existence of the duplicates on
disk. -/
theorem apply_rollback_roundtrip (dest : String → String) (fs : FsModel.Fs)
    (decisions : List Script.DuplicateDecision)
    (fs1 : FsModel.Fs) (rows : List FsModel.ManifestRow)
    (hex : ∀ d ∈ decisions, (fs d.duplicate.path).isSome = true)
    (hfresh : ∀ d ∈ decisions, fs (dest d.duplicate.path) = none)
    (hdnd : (decisions.map (fun d => d.duplicate.path)).Nodup)
    (htnd : (decisions.map (fun d => dest d.duplicate.path)).Nodup)
    (happly : FsModel.applyMoves dest fs decisions = Except.ok (fs1, rows)) :
    rows = decisions.map (rowOf dest) ∧
    (∀ p, (FsModel.rollbackLoop fs1 rows).1 p = fs p) ∧
    (FsModel.rollbackLoop fs1 rows).2.1 = rows.length ∧
    (FsModel.rollbackLoop fs1 rows).2.2 = [] ∧
    FsModel.rollbackLoop (FsModel.rollbackLoop fs1 rows).1 rows =
      ((FsModel.rollbackLoop fs1 rows).1, 0, rows.map (fun r => r.toPath)) := by
  obtain ⟨fs1b, hap2, hmoved, hframe⟩ :=
    applyMoves_spec dest decisions fs hex hfresh hdnd htnd
  have hinj := hap2.symm.trans happly
  simp only [Except.ok.injEq, Prod.mk.injEq] at hinj
  obtain ⟨hfs1, hrows⟩ := hinj
  subst hfs1
  subst hrows
  have hmem : ∀ r ∈ decisions.map (rowOf dest), ∃ d ∈ decisions, rowOf dest d = r :=
    fun r hr => List.mem_map.mp hr
  have hmapt : (decisions.map (rowOf dest)).map (fun r => r.toPath) =
      decisions.map (fun d => dest d.duplicate.path) := by
    rw [List.map_map]; rfl
  have hmapf : (decisions.map (rowOf dest)).map (fun r => r.fromPath) =
      decisions.map (fun d => d.duplicate.path) := by
    rw [List.map_map]; rfl
  obtain ⟨hmv, hsk, hback, hfr⟩ :=
    rollbackLoop_spec (decisions.map (rowOf dest)) fs1b
      (by
        intro r hr
        obtain ⟨d, hd, rfl⟩ := hmem r hr
        show (fs1b (dest d.duplicate.path)).isSome = true
        rw [(hmoved d hd).1]
        exact hex d hd)
      (by rw [hmapt]; exact htnd)
      (by rw [hmapf]; exact hdnd)
      (by
        intro r hr s hs
        obtain ⟨d2, hd2, rfl⟩ := hmem r hr
        obtain ⟨d3, hd3, rfl⟩ := hmem s hs
        show d2.duplicate.path ≠ dest d3.duplicate.path
        intro heq
        have h2s := hex d2 hd2
        rw [heq, hfresh d3 hd3] at h2s
        exact Bool.false_ne_true h2s)
  refine ⟨rfl, ?_, hmv, hsk, ?_⟩
  · intro p
    by_cases hp : ∀ r ∈ decisions.map (rowOf dest), p ≠ r.fromPath ∧ p ≠ r.toPath
    · rw [hfr p hp]
      exact hframe p (fun d hd =>
        ⟨(hp (rowOf dest d) (List.mem_map_of_mem _ hd)).1,
         (hp (rowOf dest d) (List.mem_map_of_mem _ hd)).2⟩)
    · push_neg at hp
      obtain ⟨r, hr, hpr⟩ := hp
      obtain ⟨d, hd, rfl⟩ := hmem r hr
      by_cases hpf : p = (rowOf dest d).fromPath
      · subst hpf
        rw [(hback _ hr).1]
        show fs1b (dest d.duplicate.path) = fs d.duplicate.path
        exact (hmoved d hd).1
      · have hpt : p = (rowOf dest d).toPath := hpr hpf
        subst hpt
        rw [(hback _ hr).2]
        exact (hfresh d hd).symm
  · refine rollbackLoop_all_missing (decisions.map (rowOf dest)) _ ?_
    intro r hr
    exact (hback r hr).2

/-! ### Concrete apply → rollback fixture for the C5 witness -/

def noteKeepFix : Script.NoteMeta :=
  ⟨"/inbox/2026-02-21/a.md", 20260221, 20260221, "T", "t", "https://s/1",
   "https://s/1", "s"⟩

def noteDupFix1 : Script.NoteMeta :=
  ⟨"/inbox/2026-02-21/b.md", 20260221, 20260222, "T", "t", "https://s/1",
   "https://s/1", "s"⟩

def noteDupFix2 : Script.NoteMeta :=
  ⟨"/inbox/2026-02-22/c.md", 20260222, 20260223, "T", "t", "https://s/1",
   "https://s/1", "s"⟩

def decisionsFix : List Script.DuplicateDecision :=
  [⟨noteKeepFix, noteDupFix1, "src:https://s/1", "same_source"⟩,
   ⟨noteKeepFix, noteDupFix2, "src:https://s/1", "same_source"⟩]

/-- A three-note inbox. -/
def fsFix : FsModel.Fs := fun p =>
  if p = "/inbox/2026-02-21/a.md" then some "A"
  else if p = "/inbox/2026-02-21/b.md" then some "B"
  else if p = "/inbox/2026-02-22/c.md" then some "C"
  else none

/-- The archive destination of the fixture run, with a constant stand-in for
the 8-hex SHA-1 digest. -/
def destFix (p : String) : String :=
  Script.archive_destination (fun _ => "abcd1234") "/inbox" p "/inbox/Archive/dedup"

/-- The apply-mode outcome on the fixture (total by construction; the error
branch is unreachable for this input). -/
def applyOutFix : FsModel.Fs × List FsModel.ManifestRow :=
  match FsModel.applyMoves destFix fsFix decisionsFix with
  | Except.ok r => r
  | Except.error _ => (fsFix, [])

/-- Witness for C5 on the two-duplicate fixture. -/
theorem apply_rollback_roundtrip_witness :
    applyOutFix.2 = decisionsFix.map (rowOf destFix) ∧
    (∀ p, (FsModel.rollbackLoop applyOutFix.1 applyOutFix.2).1 p = fsFix p) ∧
    (FsModel.rollbackLoop applyOutFix.1 applyOutFix.2).2.1 = applyOutFix.2.length ∧
    (FsModel.rollbackLoop applyOutFix.1 applyOutFix.2).2.2 = [] ∧
    FsModel.rollbackLoop (FsModel.rollbackLoop applyOutFix.1 applyOutFix.2).1
        applyOutFix.2 =
      ((FsModel.rollbackLoop applyOutFix.1 applyOutFix.2).1, 0,
        applyOutFix.2.map (fun r => r.toPath)) :=
  apply_rollback_roundtrip destFix fsFix decisionsFix applyOutFix.1 applyOutFix.2
    (by decide) (by decide) (by decide) (by decide) rfl

/-! ### Sorting lemmas for C1 (the resolver pre-sort) -/

theorem insertLt_perm {α : Type} (lt : α → α → Bool) (x : α) (l : List α) :
    List.Perm (insertLt lt x l) (x :: l) := by
  induction l with
  | nil => exact List.Perm.refl _
  | cons y ys ih =>
    unfold insertLt
    by_cases h : lt y x = true
    · rw [if_pos h]
      exact (List.Perm.cons y ih).trans (List.Perm.swap x y ys)
    · rw [if_neg h]

theorem pySorted_perm {α : Type} (lt : α → α → Bool) (l : List α) :
    List.Perm (pySorted lt l) l := by
  induction l with
  | nil => exact List.Perm.refl _
  | cons x xs ih => exact (insertLt_perm lt x _).trans (List.Perm.cons x ih)

/-- Inserting into a list sorted by the complement of a strict weak order
keeps it sorted. -/
theorem insertLt_pairwise {α : Type} (lt : α → α → Bool)
    (hasym : ∀ a b, lt a b = true → lt b a = false)
    (hnt : ∀ a b c, lt b a = false → lt c b = false → lt c a = false)
    (x : α) (l : List α)
    (hl : List.Pairwise (fun a b => lt b a = false) l) :
    List.Pairwise (fun a b => lt b a = false) (insertLt lt x l) := by
  induction l with
  | nil => exact List.pairwise_singleton _ _
  | cons y ys ih =>
    obtain ⟨hy, hys⟩ := List.pairwise_cons.mp hl
    unfold insertLt
    by_cases h : lt y x = true
    · rw [if_pos h]
      refine List.pairwise_cons.mpr ⟨?_, ih hys⟩
      intro z hz
      rcases List.mem_cons.mp ((insertLt_perm lt x ys).mem_iff.mp hz) with rfl | hzys
      · exact hasym y z h
      · exact hy z hzys
    · rw [if_neg h]
      have hxy : lt y x = false := by rwa [Bool.not_eq_true] at h
      refine List.pairwise_cons.mpr ⟨?_, hl⟩
      intro z hz
      rcases List.mem_cons.mp hz with rfl | hzys
      · exact hxy
      · exact hnt x y z hxy (hy z hzys)

theorem pySorted_pairwise {α : Type} (lt : α → α → Bool)
    (hasym : ∀ a b, lt a b = true → lt b a = false)
    (hnt : ∀ a b c, lt b a = false → lt c b = false → lt c a = false)
    (l : List α) :
    List.Pairwise (fun a b => lt b a = false) (pySorted lt l) := by
  induction l with
  | nil => exact List.Pairwise.nil
  | cons x xs ih => exact insertLt_pairwise lt hasym hnt x _ ih

/-- `ltNote` is the strict lexicographic order on `(created, str(path))`. -/
theorem ltNote_iff_lex (a b : Script.NoteMeta) :
    Script.ltNote a b = true ↔
      toLex (a.created, a.path) < toLex (b.created, b.path) := by
  rw [Prod.Lex.lt_iff]
  simp [Script.ltNote]

theorem ltNote_asym (a b : Script.NoteMeta) :
    Script.ltNote a b = true → Script.ltNote b a = false := by
  intro h
  rw [Bool.eq_false_iff]
  intro h2
  exact absurd ((ltNote_iff_lex b a).mp h2) (lt_asymm ((ltNote_iff_lex a b).mp h))

theorem ltNote_neg_trans (a b c : Script.NoteMeta) :
    Script.ltNote b a = false → Script.ltNote c b = false →
    Script.ltNote c a = false := by
  intro h1 h2
  rw [Bool.eq_false_iff] at h1 h2 ⊢
  intro h3
  have g1 : ¬(toLex (b.created, b.path) < toLex (a.created, a.path)) :=
    fun hx => h1 ((ltNote_iff_lex b a).mpr hx)
  have g2 : ¬(toLex (c.created, c.path) < toLex (b.created, b.path)) :=
    fun hx => h2 ((ltNote_iff_lex c b).mpr hx)
  exact absurd ((ltNote_iff_lex c a).mp h3)
    (not_lt.mpr (le_trans (not_lt.mp g1) (not_lt.mp g2)))

theorem ltNote_irrefl (a : Script.NoteMeta) : Script.ltNote a a = false := by
  rw [Bool.eq_false_iff]
  intro h
  exact lt_irrefl _ ((ltNote_iff_lex a a).mp h)

/-- `should_keep` coincides with the strict sort order of the pre-sort. -/
theorem should_keep_eq_ltNote (a b : Script.NoteMeta) :
    Script.should_keep a b = Script.ltNote a b := by
  unfold Script.should_keep Script.ltNote
  by_cases h : a.created = b.created
  · simp [h]
  · simp [h, Nat.lt_irrefl]

/-! ### Keeper-map lemmas for C1 (Python dict semantics) -/

/-- Looking up the updated key in a dict whose entry for `k` was rewritten
in place. -/
theorem findPair_map_update (m : Script.Keepers) (k : String) (v : Script.NoteMeta) :
    List.find? (fun p => p.1 == k) (m.map fun p => if p.1 == k then (k, v) else p) =
      (List.find? (fun p => p.1 == k) m).map
        (fun _ => ((k, v) : String × Script.NoteMeta)) := by
  induction m with
  | nil => rfl
  | cons p rest ih =>
    simp only [List.map_cons]
    by_cases hpk : (p.1 == k) = true
    · rw [if_pos hpk]
      simp only [List.find?_cons, hpk, beq_self_eq_true]
      rfl
    · have hpk2 : (p.1 == k) = false := by rwa [Bool.not_eq_true] at hpk
      rw [if_neg hpk]
      simp only [List.find?_cons, hpk2]
      exact ih

/-- Looking up a different key is unaffected by the in-place rewrite. -/
theorem findPair_map_update_other (m : Script.Keepers) (k : String)
    (v : Script.NoteMeta) (k2 : String) (h : k2 ≠ k) :
    List.find? (fun p => p.1 == k2) (m.map fun p => if p.1 == k then (k, v) else p) =
      List.find? (fun p => p.1 == k2) m := by
  have hk : ((k : String) == k2) = false := by
    rw [Bool.eq_false_iff]
    intro hx
    exact h (beq_iff_eq.mp hx).symm
  induction m with
  | nil => rfl
  | cons p rest ih =>
    simp only [List.map_cons]
    by_cases hpk : (p.1 == k) = true
    · have h2 : (p.1 == k2) = false := by
        rw [Bool.eq_false_iff]
        intro hx
        exact h ((beq_iff_eq.mp hx).symm.trans (beq_iff_eq.mp hpk))
      rw [if_pos hpk]
      simp only [List.find?_cons, h2, hk]
      exact ih
    · rw [if_neg hpk]
      simp only [List.find?_cons]
      cases hq : (p.1 == k2) with
      | true => rfl
      | false => exact ih

theorem keepersFind_set_self (m : Script.Keepers) (k : String) (v : Script.NoteMeta) :
    Script.keepersFind (Script.keepersSet m k v) k = some v := by
  unfold Script.keepersSet
  by_cases hp : (m.find? (fun p => p.1 == k)).isSome = true
  · rw [if_pos hp]
    obtain ⟨q, hq⟩ := Option.isSome_iff_exists.mp hp
    unfold Script.keepersFind
    rw [findPair_map_update, hq]
    rfl
  · rw [if_neg hp]
    have hnone : m.find? (fun p => p.1 == k) = none :=
      Option.not_isSome_iff_eq_none.mp (by simpa using hp)
    unfold Script.keepersFind
    rw [List.find?_append, hnone, Option.none_or]
    simp [List.find?_cons]

theorem keepersFind_set_other (m : Script.Keepers) (k : String)
    (v : Script.NoteMeta) (k2 : String) (h : k2 ≠ k) :
    Script.keepersFind (Script.keepersSet m k v) k2 = Script.keepersFind m k2 := by
  have hk : ((k : String) == k2) = false := by
    rw [Bool.eq_false_iff]
    intro hx
    exact h (beq_iff_eq.mp hx).symm
  unfold Script.keepersSet
  by_cases hp : (m.find? (fun p => p.1 == k)).isSome = true
  · rw [if_pos hp]
    unfold Script.keepersFind
    rw [findPair_map_update_other m k v k2 h]
  · rw [if_neg hp]
    unfold Script.keepersFind
    rw [List.find?_append]
    cases hq : List.find? (fun p => p.1 == k2) m with
    | some q => rfl
    | none => simp [List.find?_cons, hk]

/-- Every entry of an updated dict is the written pair or an old entry. -/
theorem keepersSet_mem (m : Script.Keepers) (k : String) (v : Script.NoteMeta) :
    ∀ kv ∈ Script.keepersSet m k v, kv = (k, v) ∨ kv ∈ m := by
  intro kv hkv
  unfold Script.keepersSet at hkv
  by_cases hp : (m.find? (fun p => p.1 == k)).isSome = true
  · rw [if_pos hp] at hkv
    obtain ⟨p, hpm, hpe⟩ := List.mem_map.mp hkv
    by_cases hpk : (p.1 == k) = true
    · rw [if_pos hpk] at hpe
      exact Or.inl hpe.symm
    · rw [if_neg hpk] at hpe
      exact Or.inr (hpe ▸ hpm)
  · rw [if_neg hp] at hkv
    rcases List.mem_append.mp hkv with h | h
    · exact Or.inr h
    · exact Or.inl (by simpa using h)

/-- One unfolding step of the `find_duplicates` loop. -/
theorem fdLoop_cons (keepers : Script.Keepers) (note : Script.NoteMeta)
    (rest : List Script.NoteMeta) :
    Script.fdLoop keepers (note :: rest) =
      (match Script.keepersFind keepers (Script.build_dedup_key note).1 with
       | none => Script.fdLoop
           (Script.keepersSet keepers (Script.build_dedup_key note).1 note) rest
       | some keep_note =>
         if Script.should_keep note keep_note then
           ⟨note, keep_note, (Script.build_dedup_key note).1,
            (Script.build_dedup_key note).2⟩ ::
             Script.fdLoop
               (Script.keepersSet keepers (Script.build_dedup_key note).1 note) rest
         else
           ⟨keep_note, note, (Script.build_dedup_key note).1,
            (Script.build_dedup_key note).2⟩ :: Script.fdLoop keepers rest) := rfl

/-- Invariant lemma for the `find_duplicates` loop over the pre-sorted
suffix `l`: `notes` is the full (sorted) candidate list, every keeper is a
minimal note of its key among all of `notes`, every note is either covered
by a keeper or still ahead in `l`.  Then every emitted decision's kept note
is a minimal note of the decision's key, and each key `k` receives exactly
as many decisions as `l` holds notes of key `k`, minus one when the key has
no keeper yet. -/
theorem fdLoop_spec (notes : List Script.NoteMeta) :
    ∀ (l : List Script.NoteMeta) (keepers : Script.Keepers),
    List.Pairwise (fun a b => Script.ltNote b a = false) l →
    (∀ n ∈ l, n ∈ notes) →
    (∀ kv ∈ keepers,
      (Script.build_dedup_key kv.2).1 = kv.1 ∧ kv.2 ∈ notes ∧
      (∀ n ∈ notes, (Script.build_dedup_key n).1 = kv.1 →
        Script.ltNote n kv.2 = false) ∧
      (∀ n ∈ l, Script.ltNote n kv.2 = false)) →
    (∀ n ∈ notes,
      (Script.keepersFind keepers (Script.build_dedup_key n).1).isSome = true ∨
        n ∈ l) →
    (∀ d ∈ Script.fdLoop keepers l,
      d.keep ∈ notes ∧ d.duplicate ∈ notes ∧
      (Script.build_dedup_key d.keep).1 = d.key ∧
      (Script.build_dedup_key d.duplicate).1 = d.key ∧
      (∀ n ∈ notes, (Script.build_dedup_key n).1 = d.key →
        Script.ltNote n d.keep = false)) ∧
    (∀ k, ((Script.fdLoop keepers l).filter (fun d => d.key == k)).length =
      (if (Script.keepersFind keepers k).isSome = true then
        (l.filter (fun n => (Script.build_dedup_key n).1 == k)).length
      else
        (l.filter (fun n => (Script.build_dedup_key n).1 == k)).length - 1)) := by
  intro l
  induction l with
  | nil =>
    intro keepers _ _ _ _
    refine ⟨by intro d hd; exact absurd hd (by simp [Script.fdLoop]), ?_⟩
    intro k
    show (List.filter _ []).length = _
    by_cases hs : (Script.keepersFind keepers k).isSome = true
    · rw [if_pos hs]; rfl
    · rw [if_neg hs]; rfl
  | cons note l2 ih =>
    intro keepers hsorted hmem hkeep hcov
    obtain ⟨hhead, hsorted2⟩ := List.pairwise_cons.mp hsorted
    cases hk : Script.keepersFind keepers (Script.build_dedup_key note).1 with
    | none =>
      have heq : Script.fdLoop keepers (note :: l2) =
          Script.fdLoop
            (Script.keepersSet keepers (Script.build_dedup_key note).1 note) l2 := by
        rw [fdLoop_cons, hk]
      have hkeep2 : ∀ kv ∈ Script.keepersSet keepers
          (Script.build_dedup_key note).1 note,
          (Script.build_dedup_key kv.2).1 = kv.1 ∧ kv.2 ∈ notes ∧
          (∀ n ∈ notes, (Script.build_dedup_key n).1 = kv.1 →
            Script.ltNote n kv.2 = false) ∧
          (∀ n ∈ l2, Script.ltNote n kv.2 = false) := by
        intro kv hkv
        rcases keepersSet_mem keepers _ note kv hkv with rfl | hold
        · refine ⟨rfl, hmem note (by simp), ?_, hhead⟩
          intro n hn hkey
          rcases hcov n hn with hsome | hl
          · rw [hkey, hk] at hsome
            exact absurd hsome (by simp)
          · rcases List.mem_cons.mp hl with rfl | h2
            · exact ltNote_irrefl n
            · exact hhead n h2
        · obtain ⟨ha, hb, hc, hd⟩ := hkeep kv hold
          exact ⟨ha, hb, hc, fun n h2 => hd n (by simp [h2])⟩
      have hcov2 : ∀ n ∈ notes,
          (Script.keepersFind
            (Script.keepersSet keepers (Script.build_dedup_key note).1 note)
            (Script.build_dedup_key n).1).isSome = true ∨ n ∈ l2 := by
        intro n hn
        by_cases hkey : (Script.build_dedup_key n).1 = (Script.build_dedup_key note).1
        · left
          rw [hkey, keepersFind_set_self]
          rfl
        · rw [keepersFind_set_other _ _ _ _ hkey]
          rcases hcov n hn with hsome | hl
          · exact Or.inl hsome
          · rcases List.mem_cons.mp hl with rfl | h2
            · exact absurd rfl hkey
            · exact Or.inr h2
      obtain ⟨ih1, ih2⟩ := ih (Script.keepersSet keepers (Script.build_dedup_key note).1 note)
        hsorted2 (fun n h2 => hmem n (by simp [h2])) hkeep2 hcov2
      rw [heq]
      refine ⟨ih1, ?_⟩
      intro k
      rw [ih2 k]
      by_cases hkk : k = (Script.build_dedup_key note).1
      · subst hkk
        rw [if_pos (by rw [keepersFind_set_self]; rfl)]
        rw [if_neg (by rw [hk]; simp)]
        rw [List.filter_cons_of_pos (by simp)]
        simp
      · rw [keepersFind_set_other _ _ _ _ hkk]
        have hfc : ((Script.build_dedup_key note).1 == k) = false := by
          rw [Bool.eq_false_iff]
          intro hx
          exact hkk (beq_iff_eq.mp hx).symm
        rw [List.filter_cons_of_neg (by rw [hfc]; exact Bool.false_ne_true)]
    | some keep_note =>
      obtain ⟨pair, hpairmem, hpaireq⟩ :
          ∃ p ∈ keepers, (p.1 == (Script.build_dedup_key note).1) = true ∧
            p.2 = keep_note := by
        unfold Script.keepersFind at hk
        cases hfind : List.find? (fun p => p.1 == (Script.build_dedup_key note).1)
            keepers with
        | none => rw [hfind] at hk; exact absurd hk (by simp)
        | some p =>
          rw [hfind] at hk
          have hp1 := List.find?_some hfind
          exact ⟨p, List.mem_of_find?_eq_some hfind, by simpa using hp1,
            by simpa using hk⟩
      obtain ⟨ha, hb, hc, hd⟩ := hkeep pair hpairmem
      rw [hpaireq.2] at hb hc hd
      have hkeyk : (Script.build_dedup_key keep_note).1 =
          (Script.build_dedup_key note).1 := by
        rw [hpaireq.2] at ha
        rw [ha]
        exact beq_iff_eq.mp hpaireq.1
      have hnotlt : Script.ltNote note keep_note = false := hd note (by simp)
      have hsk : Script.should_keep note keep_note = false := by
        rw [should_keep_eq_ltNote]
        exact hnotlt
      have heq : Script.fdLoop keepers (note :: l2) =
          ⟨keep_note, note, (Script.build_dedup_key note).1,
           (Script.build_dedup_key note).2⟩ :: Script.fdLoop keepers l2 := by
        rw [fdLoop_cons, hk]
        simp [hsk]
      have hcov2 : ∀ n ∈ notes,
          (Script.keepersFind keepers (Script.build_dedup_key n).1).isSome = true ∨
            n ∈ l2 := by
        intro n hn
        rcases hcov n hn with hsome | hl
        · exact Or.inl hsome
        · rcases List.mem_cons.mp hl with rfl | h2
          · left
            rw [hk]
            rfl
          · exact Or.inr h2
      obtain ⟨ih1, ih2⟩ := ih keepers hsorted2 (fun n h2 => hmem n (by simp [h2]))
        (fun kv hkv =>
          let h := hkeep kv hkv
          ⟨h.1, h.2.1, h.2.2.1, fun n h2 => h.2.2.2 n (by simp [h2])⟩)
        hcov2
      rw [heq]
      constructor
      · intro d hd2
        rcases List.mem_cons.mp hd2 with rfl | h2
        · exact ⟨hb, hmem note (by simp), hkeyk, rfl, fun n hn hkey => hc n hn
            (hkey.trans (beq_iff_eq.mp hpaireq.1).symm)⟩
        · exact ih1 d h2
      · intro k
        by_cases hkk : k = (Script.build_dedup_key note).1
        · subst hkk
          rw [List.filter_cons_of_pos (by simp),
            List.filter_cons_of_pos (by simp)]
          rw [if_pos (by rw [hk]; rfl)]
          rw [List.length_cons, List.length_cons, ih2 _,
            if_pos (by rw [hk]; rfl)]
        · have hfc : ((Script.build_dedup_key note).1 == k) = false := by
            rw [Bool.eq_false_iff]
            intro hx
            exact hkk (beq_iff_eq.mp hx).symm
          rw [List.filter_cons_of_neg (by rw [hfc]; exact Bool.false_ne_true),
            List.filter_cons_of_neg (by rw [hfc]; exact Bool.false_ne_true)]
          exact ih2 k

/-- **C1** — `find_duplicates` processes the candidates sorted by
`(created_date, path)` ascending; a group of N notes sharing one dedup key
yields exactly N−1 pairwise decisions (per key: group size minus one, with
truncated subtraction covering the empty group), and in every decision the
kept note carries the decision's key and no note of that key beats it under
`should_keep` — it has the earliest `created_date`, ties broken by the
lexicographically smaller path. -/
theorem find_duplicates_pairwise_decisions (notes : List Script.NoteMeta)
    (k : String) :
    ((Script.find_duplicates notes).filter (fun d => d.key == k)).length =
      (notes.filter (fun n => (Script.build_dedup_key n).1 == k)).length - 1 ∧
    ∀ d ∈ Script.find_duplicates notes,
      d.keep ∈ notes ∧ d.duplicate ∈ notes ∧
      (Script.build_dedup_key d.keep).1 = d.key ∧
      (Script.build_dedup_key d.duplicate).1 = d.key ∧
      ∀ n ∈ notes, (Script.build_dedup_key n).1 = d.key →
        Script.should_keep n d.keep = false := by
  have hperm := pySorted_perm Script.ltNote notes
  have hsorted := pySorted_pairwise Script.ltNote ltNote_asym ltNote_neg_trans notes
  obtain ⟨h1, h2⟩ := fdLoop_spec (pySorted Script.ltNote notes)
    (pySorted Script.ltNote notes) [] hsorted (fun _ hn => hn)
    (fun kv hkv => absurd hkv (List.not_mem_nil kv))
    (fun _ hn => Or.inr hn)
  constructor
  · have hcnt := h2 k
    rw [if_neg (by simp [Script.keepersFind])] at hcnt
    show ((Script.fdLoop [] (pySorted Script.ltNote notes)).filter
      (fun d => d.key == k)).length = _
    rw [hcnt]
    congr 1
    exact (hperm.filter _).length_eq
  · intro d hd
    obtain ⟨hm1, hm2, hm3, hm4, hm5⟩ := h1 d hd
    refine ⟨hperm.mem_iff.mp hm1, hperm.mem_iff.mp hm2, hm3, hm4, ?_⟩
    intro n hn hkey
    rw [should_keep_eq_ltNote]
    exact hm5 n (hperm.mem_iff.mpr hn) hkey

/-! ### Whitespace lemmas for C10: the two title normalizers agree -/

theorem charOfNat_toNat (n : Nat) (h : n < 0xd800) : (Char.ofNat n).toNat = n := by
  have hv : n.isValidChar := Or.inl h
  unfold Char.ofNat
  rw [dif_pos hv]
  simp [Char.ofNatAux, Char.toNat, UInt32.toNat]

/-- ASCII lowercasing maps whitespace to whitespace and non-whitespace to
non-whitespace. -/
theorem pyIsSpace_lowerChar (c : Char) : pyIsSpace (pyLowerChar c) = pyIsSpace c := by
  unfold pyLowerChar
  by_cases h : (c.toNat ≥ 0x41 && c.toNat ≤ 0x5A) = true
  · rw [if_pos h]
    rw [Bool.and_eq_true, decide_eq_true_iff, decide_eq_true_iff] at h
    have h32 : (Char.ofNat (c.toNat + 0x20)).toNat = c.toNat + 0x20 :=
      charOfNat_toNat _ (by omega)
    have hl : pyIsSpace (Char.ofNat (c.toNat + 0x20)) = false := by
      simp only [pyIsSpace, h32]
      simp only [Bool.or_eq_false_iff, Bool.and_eq_false_iff,
        decide_eq_false_iff_not, not_le, beq_eq_false_iff_ne, ne_eq]
      omega
    have hr : pyIsSpace c = false := by
      simp only [pyIsSpace]
      simp only [Bool.or_eq_false_iff, Bool.and_eq_false_iff,
        decide_eq_false_iff_not, not_le, beq_eq_false_iff_ne, ne_eq]
      omega
    rw [hl, hr]
  · rw [if_neg h]

/-- No trailing whitespace. -/
def noTrailingWs (s : List Char) : Prop :=
  ∀ c, s.getLast? = some c → pyIsSpace c = false

theorem noTrailingWs_tail (c : Char) (s : List Char)
    (h : noTrailingWs (c :: s)) : noTrailingWs s := by
  intro c2 hc2
  apply h
  cases s with
  | nil => exact absurd hc2 (by simp)
  | cons x xs => rw [List.getLast?_cons_cons]; exact hc2

theorem splitWsAux_ne_nil_of_acc (s : List Char) :
    ∀ acc : List Char, acc ≠ [] → pySplitWsAux acc s ≠ [] := by
  induction s with
  | nil =>
    intro acc hacc
    unfold pySplitWsAux
    rw [if_neg (by simpa using hacc)]
    exact List.cons_ne_nil _ _
  | cons x xs ih =>
    intro acc hacc
    unfold pySplitWsAux
    by_cases hx : pyIsSpace x = true
    · rw [if_pos hx, if_neg (by simpa using hacc)]
      exact List.cons_ne_nil _ _
    · rw [if_neg hx]
      exact ih (x :: acc) (List.cons_ne_nil _ _)

theorem splitWs_ne_nil (s : List Char) (h : ∃ c ∈ s, pyIsSpace c = false) :
    pySplitWsAux [] s ≠ [] := by
  induction s with
  | nil => simp at h
  | cons x xs ih =>
    unfold pySplitWsAux
    by_cases hx : pyIsSpace x = true
    · rw [if_pos hx]
      show pySplitWsAux [] xs ≠ []
      obtain ⟨c, hc, hcws⟩ := h
      rcases List.mem_cons.mp hc with rfl | h2
      · exact absurd hx (by rw [hcws]; exact Bool.false_ne_true)
      · exact ih ⟨c, h2, hcws⟩
    · rw [if_neg hx]
      exact splitWsAux_ne_nil_of_acc xs [x] (List.cons_ne_nil _ _)

/-- The two whitespace-collapsing pipelines agree on strings without
trailing whitespace: `" ".join(s.split())` (the store) equals the regex
substitution `\s+ → " "` (the script).  The `acc ≠ []` component tracks a
word in progress, the second component a run already collapsed. -/
theorem splitWs_wsCollapse :
    ∀ s : List Char, noTrailingWs s →
    (∀ acc : List Char, acc ≠ [] →
      joinSpace (pySplitWsAux acc s) =
        acc.reverse ++ Script.wsCollapseAux false s) ∧
    joinSpace (pySplitWsAux [] s) = Script.wsCollapseAux true s := by
  intro s
  induction s with
  | nil =>
    intro _
    refine ⟨?_, rfl⟩
    intro acc hacc
    show joinSpace (pySplitWsAux acc []) = _
    unfold pySplitWsAux
    rw [if_neg (by simpa using hacc)]
    show acc.reverse = acc.reverse ++ Script.wsCollapseAux false []
    rw [show Script.wsCollapseAux false [] = [] from rfl, List.append_nil]
  | cons c s2 ih =>
    intro hnt
    have hnt2 : noTrailingWs s2 := noTrailingWs_tail c s2 hnt
    obtain ⟨ih1, ih2⟩ := ih hnt2
    by_cases hws : pyIsSpace c = true
    · have hs2 : s2 ≠ [] := by
        intro h
        subst h
        have := hnt c (by simp)
        rw [this] at hws
        exact Bool.false_ne_true hws
      have hnonws : ∃ c2 ∈ s2, pyIsSpace c2 = false := by
        refine ⟨s2.getLast hs2, List.getLast_mem hs2, ?_⟩
        exact hnt2 _ (List.getLast?_eq_getLast s2 hs2)
      have hL : pySplitWsAux [] s2 ≠ [] := splitWs_ne_nil s2 hnonws
      constructor
      · intro acc hacc
        have hstep : pySplitWsAux acc (c :: s2) =
            acc.reverse :: pySplitWsAux [] s2 := by
          show (if pyIsSpace c = true then
              if acc.isEmpty = true then pySplitWsAux [] s2
              else acc.reverse :: pySplitWsAux [] s2
            else pySplitWsAux (c :: acc) s2) = acc.reverse :: pySplitWsAux [] s2
          rw [if_pos hws, if_neg (by simpa using hacc)]
        rw [hstep]
        cases hLL : pySplitWsAux [] s2 with
        | nil => exact absurd hLL hL
        | cons w ws2 =>
          show acc.reverse ++ ' ' :: joinSpace (w :: ws2) = _
          rw [← hLL, ih2]
          have hcol : Script.wsCollapseAux false (c :: s2) =
              ' ' :: Script.wsCollapseAux true s2 := by
            show (if pyIsSpace c = true then
                if false = true then Script.wsCollapseAux true s2
                else ' ' :: Script.wsCollapseAux true s2
              else c :: Script.wsCollapseAux false s2) =
              ' ' :: Script.wsCollapseAux true s2
            rw [if_pos hws, if_neg Bool.false_ne_true]
          rw [hcol]
      · have hstep : pySplitWsAux [] (c :: s2) = pySplitWsAux [] s2 := by
          show (if pyIsSpace c = true then
              if List.isEmpty ([] : List Char) = true then pySplitWsAux [] s2
              else List.reverse ([] : List Char) :: pySplitWsAux [] s2
            else pySplitWsAux [c] s2) = pySplitWsAux [] s2
          rw [if_pos hws]
          rfl
        have hcol : Script.wsCollapseAux true (c :: s2) =
            Script.wsCollapseAux true s2 := by
          show (if pyIsSpace c = true then
              if true = true then Script.wsCollapseAux true s2
              else ' ' :: Script.wsCollapseAux true s2
            else c :: Script.wsCollapseAux false s2) = Script.wsCollapseAux true s2
          rw [if_pos hws]
          rfl
        rw [hstep, hcol, ih2]
    · have hcol : ∀ b : Bool, Script.wsCollapseAux b (c :: s2) =
          c :: Script.wsCollapseAux false s2 := by
        intro b
        show (if pyIsSpace c = true then
            if b = true then Script.wsCollapseAux true s2
            else ' ' :: Script.wsCollapseAux true s2
          else c :: Script.wsCollapseAux false s2) =
          c :: Script.wsCollapseAux false s2
        rw [if_neg hws]
      constructor
      · intro acc hacc
        have hstep : pySplitWsAux acc (c :: s2) = pySplitWsAux (c :: acc) s2 := by
          show (if pyIsSpace c = true then
              if acc.isEmpty = true then pySplitWsAux [] s2
              else acc.reverse :: pySplitWsAux [] s2
            else pySplitWsAux (c :: acc) s2) = pySplitWsAux (c :: acc) s2
          rw [if_neg hws]
        rw [hstep, ih1 (c :: acc) (List.cons_ne_nil _ _), hcol false,
          List.reverse_cons, List.append_assoc]
        rfl
      · have hstep : pySplitWsAux [] (c :: s2) = pySplitWsAux [c] s2 := by
          show (if pyIsSpace c = true then
              if List.isEmpty ([] : List Char) = true then pySplitWsAux [] s2
              else List.reverse ([] : List Char) :: pySplitWsAux [] s2
            else pySplitWsAux [c] s2) = pySplitWsAux [c] s2
          rw [if_neg hws]
        rw [hstep, ih1 [c] (List.cons_ne_nil _ _), hcol true]
        rfl

/-- No leading whitespace. -/
def noLeadingWs (s : List Char) : Prop :=
  ∀ c, s.head? = some c → pyIsSpace c = false

theorem head_dropWhile_false (p : Char → Bool) (l : List Char) :
    ∀ c, (l.dropWhile p).head? = some c → p c = false := by
  induction l with
  | nil => intro c h; simp [List.dropWhile] at h
  | cons x xs ih =>
    intro c h
    rw [List.dropWhile_cons] at h
    by_cases hx : p x = true
    · rw [if_pos hx] at h
      exact ih c h
    · rw [if_neg hx] at h
      simp only [List.head?_cons, Option.some.injEq] at h
      subst h
      rwa [Bool.not_eq_true] at hx

theorem pyStrip_noLeading (l : List Char) : noLeadingWs (pyStrip l) := by
  intro c hc
  unfold pyStrip at hc
  rw [List.head?_reverse] at hc
  obtain ⟨t, ht⟩ :=
    (List.dropWhile_suffix pyIsSpace :
      (l.dropWhile pyIsSpace).reverse.dropWhile pyIsSpace <:+
        (l.dropWhile pyIsSpace).reverse)
  have hB : (l.dropWhile pyIsSpace).reverse.dropWhile pyIsSpace ≠ [] := by
    intro h0
    rw [h0] at hc
    simp at hc
  have hgl : (l.dropWhile pyIsSpace).reverse.getLast? = some c := by
    rw [← ht, List.getLast?_append_of_ne_nil _ hB]
    exact hc
  rw [List.getLast?_reverse] at hgl
  exact head_dropWhile_false pyIsSpace l c hgl

theorem pyStrip_noTrailing (l : List Char) : noTrailingWs (pyStrip l) := by
  intro c hc
  unfold pyStrip at hc
  rw [List.getLast?_reverse] at hc
  exact head_dropWhile_false pyIsSpace _ c hc

theorem noLeadingWs_pyLower (l : List Char) (h : noLeadingWs l) :
    noLeadingWs (pyLower l) := by
  intro c hc
  unfold pyLower at hc
  rw [List.head?_map] at hc
  cases hh : l.head? with
  | none => rw [hh] at hc; exact Option.noConfusion hc
  | some d =>
    rw [hh] at hc
    simp only [Option.map_some', Option.some.injEq] at hc
    rw [← hc, pyIsSpace_lowerChar]
    exact h d hh

theorem noTrailingWs_pyLower (l : List Char) (h : noTrailingWs l) :
    noTrailingWs (pyLower l) := by
  intro c hc
  unfold pyLower at hc
  rw [List.getLast?_map] at hc
  cases hh : l.getLast? with
  | none => rw [hh] at hc; exact Option.noConfusion hc
  | some d =>
    rw [hh] at hc
    simp only [Option.map_some', Option.some.injEq] at hc
    rw [← hc, pyIsSpace_lowerChar]
    exact h d hh

theorem wsCollapse_true_eq_false (l : List Char) (h : noLeadingWs l) :
    Script.wsCollapseAux true l = Script.wsCollapseAux false l := by
  cases l with
  | nil => rfl
  | cons c cs =>
    have hc : pyIsSpace c = false := h c rfl
    have hcne : ¬ pyIsSpace c = true := by
      rw [hc]; exact Bool.false_ne_true
    show (if pyIsSpace c = true then
        if true = true then Script.wsCollapseAux true cs
        else ' ' :: Script.wsCollapseAux true cs
      else c :: Script.wsCollapseAux false cs) =
      (if pyIsSpace c = true then
        if false = true then Script.wsCollapseAux true cs
        else ' ' :: Script.wsCollapseAux true cs
      else c :: Script.wsCollapseAux false cs)
    rw [if_neg hcne, if_neg hcne]

/-- The script's regex-based title normalizer agrees with the store's
split/join normalizer on every input string. -/
theorem normalize_title_equiv (t : String) :
    Script.normalize_title t = DedupStore.normalize_title t := by
  unfold Script.normalize_title DedupStore.normalize_title
  congr 1
  have hnl : noLeadingWs (pyLower (pyStrip t.toList)) :=
    noLeadingWs_pyLower _ (pyStrip_noLeading t.toList)
  have hnt : noTrailingWs (pyLower (pyStrip t.toList)) :=
    noTrailingWs_pyLower _ (pyStrip_noTrailing t.toList)
  have h1 := (splitWs_wsCollapse (pyLower (pyStrip t.toList)) hnt).2
  show Script.wsCollapseAux false (pyLower (pyStrip t.toList)) =
    joinSpace (pySplitWsAux [] (pyLower (pyStrip t.toList)))
  rw [h1, wsCollapse_true_eq_false _ hnl]

/-- The two tracking-parameter filters test prefix membership and key
membership in opposite orders; pointwise the two guards agree. -/
theorem filter_tracking_swap (l : List (List Nat × List Nat))
    (keys prefs : List (List Nat)) :
    (l.filter fun kv =>
      if prefs.any (fun p => p.isPrefixOf (kv.1.map byteLower)) then false
      else if keys.contains (kv.1.map byteLower) then false
      else true) =
    (l.filter fun kv =>
      if keys.contains (kv.1.map byteLower) then false
      else if prefs.any (fun p => p.isPrefixOf (kv.1.map byteLower)) then false
      else true) := by
  apply List.filter_congr
  intro kv _
  cases h1 : keys.contains (kv.1.map byteLower) <;>
    cases h2 : prefs.any (fun p => p.isPrefixOf (kv.1.map byteLower)) <;>
      simp [h1, h2]

/-- Under the default configuration the script's hard-coded tracking sets
coincide with the store's configured sets, and the two URL normalizers
agree on every input. -/
theorem normalize_url_equiv (url : String) :
    Script.normalize_url url =
      DedupStore.normalize_url (bouncer_dedup_query_drop_keys none)
        (bouncer_dedup_query_drop_prefixes none) url := by
  have hkeys : bouncer_dedup_query_drop_keys none = Script.trackingQueryKeys := by decide
  have hpref : bouncer_dedup_query_drop_prefixes none = Script.trackingQueryPrefixes := by
    decide
  rw [hkeys, hpref]
  unfold Script.normalize_url DedupStore.normalize_url
  dsimp only
  by_cases hraw : (pyStrip url.toList).isEmpty = true
  · rw [if_pos hraw, if_pos hraw]
  · rw [if_neg hraw, if_neg hraw]
    cases hsplit : urlsplit (pyStrip url.toList) with
    | error e => rfl
    | ok parts =>
      dsimp only
      rw [filter_tracking_swap]

/-- **C10**: under the default drop-key/drop-prefix configuration the offline
resolver and the live store agree: the two URL normalizers compute the same
(normalized, host) pair for every url, the two title normalizers compute the
same normalized title for every title, and for a note whose metadata was
produced by the script's normalizers, the script's `build_dedup_key` yields
exactly the (key, reason) that the store's `build_key` computes from the same
(url, title) — so both passes classify the same items as duplicates. -/
theorem script_store_dedup_agree (url title : String) :
    Script.normalize_url url =
      DedupStore.normalize_url (bouncer_dedup_query_drop_keys none)
        (bouncer_dedup_query_drop_prefixes none) url ∧
    Script.normalize_title title = DedupStore.normalize_title title ∧
    ∀ (normalized host : String) (note : Script.NoteMeta),
      Script.normalize_url url = Except.ok (normalized, host) →
      note.normalized_source = normalized →
      note.source_host = host →
      note.normalized_title = Script.normalize_title title →
      DedupStore.build_key (bouncer_dedup_query_drop_keys none)
        (bouncer_dedup_query_drop_prefixes none) url title =
        Except.ok ((Script.build_dedup_key note).1, (Script.build_dedup_key note).2,
          normalized, host) := by
  refine ⟨normalize_url_equiv url, normalize_title_equiv title, ?_⟩
  intro normalized host note hok h1 h2 h3
  unfold DedupStore.build_key
  rw [← normalize_url_equiv url, hok]
  dsimp only
  unfold Script.build_dedup_key
  rw [h1, h2, h3, ← normalize_title_equiv title]
  by_cases hne : normalized = ""
  · rw [if_neg (not_not_intro hne), if_neg (not_not_intro hne)]
  · rw [if_pos hne, if_pos hne]

/-- Witness for C10 at a concrete (url, title) and the note the script's
loader would build for them. -/
theorem script_store_dedup_agree_witness :
    DedupStore.build_key (bouncer_dedup_query_drop_keys none)
      (bouncer_dedup_query_drop_prefixes none)
      "https://WWW.Example.com/a/?utm_source=y" " Hello   World " =
      Except.ok ("src:" ++ "https://example.com/a", "same_source",
        "https://example.com/a", "example.com") :=
  (script_store_dedup_agree "https://WWW.Example.com/a/?utm_source=y"
    " Hello   World ").2.2 "https://example.com/a" "example.com"
    ⟨"inbox/a.md", 0, 0, " Hello   World ", "hello world",
      "https://WWW.Example.com/a/?utm_source=y", "https://example.com/a",
      "example.com"⟩
    (by decide) rfl rfl (by decide)

/-! ### C9: invariance of URL normalization under tracking parameters -/

/-- Characters a query name/value may consist of for the generic
tracking-parameter theorem: ASCII alphanumerics, `_` and `-`.  These pass
unchanged through `urlsplit`, `parse_qsl` and percent-decoding. -/
def isPlainQueryChar (c : Char) : Bool :=
  (0x30 ≤ c.toNat && c.toNat ≤ 0x39) || (0x41 ≤ c.toNat && c.toNat ≤ 0x5A) ||
  (0x61 ≤ c.toNat && c.toNat ≤ 0x7A) || c == '_' || c == '-'

theorem plain_toNat (c : Char) (h : isPlainQueryChar c = true) :
    (0x30 ≤ c.toNat ∧ c.toNat ≤ 0x39) ∨ (0x41 ≤ c.toNat ∧ c.toNat ≤ 0x5A) ∨
    (0x61 ≤ c.toNat ∧ c.toNat ≤ 0x7A) ∨ c.toNat = 0x5F ∨ c.toNat = 0x2D := by
  unfold isPlainQueryChar at h
  simp only [Bool.or_eq_true, Bool.and_eq_true, decide_eq_true_eq,
    beq_iff_eq] at h
  rcases h with ((((h1 | h2) | h3) | h4) | h5)
  · exact Or.inl h1
  · exact Or.inr (Or.inl h2)
  · exact Or.inr (Or.inr (Or.inl h3))
  · subst h4; exact Or.inr (Or.inr (Or.inr (Or.inl rfl)))
  · subst h5; exact Or.inr (Or.inr (Or.inr (Or.inr rfl)))

theorem plain_range (c : Char) (h : isPlainQueryChar c = true) :
    0x2D ≤ c.toNat ∧ c.toNat ≤ 0x7A := by
  rcases plain_toNat c h with h1 | h2 | h3 | h4 | h5 <;> omega

theorem plain_beq_false (c d : Char) (h : isPlainQueryChar c = true)
    (hd : isPlainQueryChar d = false) : (c == d) = false := by
  cases hb : c == d with
  | true =>
    have heq : c = d := beq_iff_eq.mp hb
    rw [heq] at h
    rw [h] at hd
    exact Bool.noConfusion hd
  | false => rfl

theorem plain_not_ws (c : Char) (h : isPlainQueryChar c = true) :
    pyIsSpace c = false := by
  have hr := plain_range c h
  simp only [pyIsSpace]
  simp only [Bool.or_eq_false_iff, Bool.and_eq_false_iff,
    decide_eq_false_iff_not, not_le, beq_eq_false_iff_ne, ne_eq]
  omega

theorem plain_gt20 (c : Char) (h : isPlainQueryChar c = true) :
    decide (c.toNat ≤ 0x20) = false := by
  have hr := plain_range c h
  rw [decide_eq_false_iff_not]
  omega

theorem plain_not_ctl (c : Char) (h : isPlainQueryChar c = true) :
    (!(c == '\t' || c == '\r' || c == '\n')) = true := by
  have h1 := plain_beq_false c '\t' h (by decide)
  have h2 := plain_beq_false c '\r' h (by decide)
  have h3 := plain_beq_false c '\n' h (by decide)
  rw [h1, h2, h3]
  rfl

theorem plain_lt80 (c : Char) (h : isPlainQueryChar c = true) :
    c.toNat < 0x80 := by
  have hr := plain_range c h
  omega

theorem dropWhile_eq_self_forall (p : Char → Bool) (l : List Char)
    (h : ∀ c ∈ l, p c = false) : l.dropWhile p = l := by
  cases l with
  | nil => rfl
  | cons x xs =>
    rw [List.dropWhile_cons,
      if_neg (by rw [h x (List.mem_cons_self x xs)]; exact Bool.false_ne_true)]

theorem pyStrip_eq_self (l : List Char) (h : ∀ c ∈ l, pyIsSpace c = false) :
    pyStrip l = l := by
  unfold pyStrip
  rw [dropWhile_eq_self_forall _ _ h,
    dropWhile_eq_self_forall _ _ (fun c hc => h c (List.mem_reverse.mp hc)),
    List.reverse_reverse]

theorem splitFirst_none_of (sep : Char) (l : List Char)
    (h : ∀ c ∈ l, (c == sep) = false) : splitFirst sep l = none := by
  induction l with
  | nil => rfl
  | cons x xs ih =>
    show (if x == sep then some ([], xs)
      else match splitFirst sep xs with
        | none => none
        | some (a, b) => some (x :: a, b)) = none
    rw [if_neg (by rw [h x (List.mem_cons_self x xs)]; exact Bool.false_ne_true),
      ih (fun c hc => h c (List.mem_cons_of_mem x hc))]

theorem splitFirst_append_sep (sep : Char) (l₁ l₂ : List Char)
    (h : ∀ c ∈ l₁, (c == sep) = false) :
    splitFirst sep (l₁ ++ sep :: l₂) = some (l₁, l₂) := by
  induction l₁ with
  | nil =>
    show (if sep == sep then some ([], l₂)
      else match splitFirst sep l₂ with
        | none => none
        | some (a, b) => some (sep :: a, b)) = some ([], l₂)
    rw [if_pos (beq_self_eq_true sep)]
  | cons x xs ih =>
    show (if x == sep then some ([], xs ++ sep :: l₂)
      else match splitFirst sep (xs ++ sep :: l₂) with
        | none => none
        | some (a, b) => some (x :: a, b)) = some (x :: xs, l₂)
    rw [if_neg (by rw [h x (List.mem_cons_self x xs)]; exact Bool.false_ne_true),
      ih (fun c hc => h c (List.mem_cons_of_mem x hc))]

theorem splitSep_no_sep (sep : Char) (l : List Char)
    (h : ∀ c ∈ l, (c == sep) = false) : splitSep sep l = [l] := by
  induction l with
  | nil => rfl
  | cons x xs ih =>
    show (match splitSep sep xs with
      | [] => [[]]
      | h :: t => if x == sep then [] :: h :: t else (x :: h) :: t) = [x :: xs]
    rw [ih (fun c hc => h c (List.mem_cons_of_mem x hc))]
    show (if x == sep then [] :: xs :: [] else (x :: xs) :: []) = [x :: xs]
    rw [if_neg (by rw [h x (List.mem_cons_self x xs)]; exact Bool.false_ne_true)]

theorem unquotePlusAux_plain (fuel : Nat) :
    ∀ l : List Char, l.length ≤ fuel → (∀ c ∈ l, isPlainQueryChar c = true) →
    unquotePlusAux fuel l = l.map Char.toNat := by
  induction fuel with
  | zero =>
    intro l hl _
    cases l with
    | nil => rfl
    | cons c cs => simp at hl
  | succ f ih =>
    intro l hl hp
    cases l with
    | nil => rfl
    | cons c cs =>
      have hc := hp c (List.mem_cons_self c cs)
      conv_lhs => unfold unquotePlusAux
      rw [if_neg (by rw [plain_beq_false c '+' hc (by decide)]; exact Bool.false_ne_true),
        if_neg (by rw [plain_beq_false c '%' hc (by decide)]; exact Bool.false_ne_true),
        ih cs (by simp at hl; omega) (fun x hx => hp x (List.mem_cons_of_mem c hx))]
      have h8 : utf8Bytes c = [c.toNat] := by
        unfold utf8Bytes
        rw [if_pos (plain_lt80 c hc)]
      rw [h8]
      rfl

theorem unquotePlus_plain (l : List Char)
    (h : ∀ c ∈ l, isPlainQueryChar c = true) :
    unquotePlus l = l.map Char.toNat :=
  unquotePlusAux_plain l.length l (Nat.le_refl _) h

/-- Appending one query parameter `k=v` made of plain characters whose
percent-decoded, lowercased name starts with `utm_` to `https://x.com/a`
normalizes to the same pair as the bare URL. -/
theorem normalize_url_utm_param (kL vL : List Char)
    (hkp : ∀ c ∈ kL, isPlainQueryChar c = true)
    (hvp : ∀ c ∈ vL, isPlainQueryChar c = true)
    (hutm : (kL.map (fun c => byteLower c.toNat)).take 4 = [117, 116, 109, 95]) :
    DedupStore.normalize_url (bouncer_dedup_query_drop_keys none)
      (bouncer_dedup_query_drop_prefixes none)
      (("https://x.com/a?".toList ++ kL ++ '=' :: vL).asString) =
      Except.ok ("https://x.com/a", "x.com") := by
  have hbase : ∀ x ∈ "https://x.com/a?".toList, pyIsSpace x = false := by decide
  have hnws : ∀ c ∈ "https://x.com/a?".toList ++ kL ++ '=' :: vL,
      pyIsSpace c = false := by
    intro c hc
    rcases List.mem_append.mp hc with hbk | hvm
    · rcases List.mem_append.mp hbk with hb | hkm
      · exact hbase c hb
      · exact plain_not_ws c (hkp c hkm)
    · rcases List.mem_cons.mp hvm with rfl | hvm2
      · decide
      · exact plain_not_ws c (hvp c hvm2)
  have hbasec : ∀ x ∈ "https://x.com/a?".toList,
      (!(x == '\t' || x == '\r' || x == '\n')) = true := by decide
  have hctl : ∀ c ∈ "https://x.com/a?".toList ++ kL ++ '=' :: vL,
      (!(c == '\t' || c == '\r' || c == '\n')) = true := by
    intro c hc
    rcases List.mem_append.mp hc with hbk | hvm
    · rcases List.mem_append.mp hbk with hb | hkm
      · exact hbasec c hb
      · exact plain_not_ctl c (hkp c hkm)
    · rcases List.mem_cons.mp hvm with rfl | hvm2
      · decide
      · exact plain_not_ctl c (hvp c hvm2)
  have hstrip : pyStrip ("https://x.com/a?".toList ++ kL ++ '=' :: vL) =
      "https://x.com/a?".toList ++ kL ++ '=' :: vL := pyStrip_eq_self _ hnws
  have hfil : ((("https://x.com/a?".toList ++ kL ++ '=' :: vL).dropWhile
        (fun c => decide (c.toNat ≤ 0x20))).filter
        (fun c => !(c == '\t' || c == '\r' || c == '\n'))) =
      "https://x.com/a?".toList ++ kL ++ '=' :: vL :=
    List.filter_eq_self.mpr hctl
  have hdet : detectScheme ("https://x.com/a?".toList ++ kL ++ '=' :: vL) =
      ("https".toList, "//x.com/a?".toList ++ kL ++ '=' :: vL) := rfl
  have hsnc : splitNetlocChecked ("//x.com/a?".toList ++ kL ++ '=' :: vL) =
      Except.ok ("x.com".toList, "/a?".toList ++ kL ++ '=' :: vL) := rfl
  have hsharp : splitFirst '#' ("/a?".toList ++ kL ++ '=' :: vL) = none := by
    apply splitFirst_none_of
    intro c hc
    rcases List.mem_append.mp hc with hbk | hvm
    · rcases List.mem_append.mp hbk with hb | hkm
      · exact (by decide : ∀ x ∈ "/a?".toList, (x == '#') = false) c hb
      · exact plain_beq_false c '#' (hkp c hkm) (by decide)
    · rcases List.mem_cons.mp hvm with rfl | hvm2
      · decide
      · exact plain_beq_false c '#' (hvp c hvm2) (by decide)
  have hq : splitFirst '?' ("/a?".toList ++ kL ++ '=' :: vL) =
      some ("/a".toList, kL ++ '=' :: vL) :=
    splitFirst_append_sep '?' ['/', 'a'] (kL ++ '=' :: vL) (by decide)
  have hsplit : urlsplit ("https://x.com/a?".toList ++ kL ++ '=' :: vL) =
      Except.ok ⟨"https".toList, "x.com".toList, "/a".toList,
        kL ++ '=' :: vL, []⟩ := by
    unfold urlsplit
    dsimp only
    rw [hfil, hdet]
    dsimp only
    rw [hsnc]
    dsimp only
    rw [hsharp]
    dsimp only
    rw [hq]
  have hamp : ∀ c ∈ kL ++ '=' :: vL, (c == '&') = false := by
    intro c hc
    rcases List.mem_append.mp hc with hkm | hvm
    · exact plain_beq_false c '&' (hkp c hkm) (by decide)
    · rcases List.mem_cons.mp hvm with rfl | hvm2
      · decide
      · exact plain_beq_false c '&' (hvp c hvm2) (by decide)
  have hkeq : ∀ c ∈ kL, (c == '=') = false :=
    fun c hc => plain_beq_false c '=' (hkp c hc) (by decide)
  have hqsl : parse_qsl (kL ++ '=' :: vL) =
      [(kL.map Char.toNat, vL.map Char.toNat)] := by
    unfold parse_qsl
    rw [if_neg (by simp), splitSep_no_sep '&' _ hamp, List.filterMap_cons]
    rw [if_neg (by simp), splitFirst_append_sep '=' kL vL hkeq]
    dsimp only
    rw [unquotePlus_plain kL hkp, unquotePlus_plain vL hvp, List.filterMap_nil]
  have hkb : (bouncer_dedup_query_drop_keys none).map bytesOfChars =
      [[115, 112, 109], [102, 114, 111, 109], [105, 103, 115, 104, 105, 100],
       [102, 98, 99, 108, 105, 100], [103, 99, 108, 105, 100],
       [109, 99, 95, 99, 105, 100], [109, 99, 95, 101, 105, 100],
       [114, 101, 102]] := by decide
  have hpb : (bouncer_dedup_query_drop_prefixes none).map bytesOfChars =
      [[117, 116, 109, 95]] := by decide
  have hlow : (kL.map Char.toNat).map byteLower =
      kL.map (fun c => byteLower c.toNat) := by
    rw [List.map_map]
    rfl
  have hcont : ([[115, 112, 109], [102, 114, 111, 109],
      [105, 103, 115, 104, 105, 100], [102, 98, 99, 108, 105, 100],
      [103, 99, 108, 105, 100], [109, 99, 95, 99, 105, 100],
      [109, 99, 95, 101, 105, 100], [114, 101, 102]] : List (List Nat)).contains
        (kL.map (fun c => byteLower c.toNat)) = false := by
    cases hcb : ([[115, 112, 109], [102, 114, 111, 109],
      [105, 103, 115, 104, 105, 100], [102, 98, 99, 108, 105, 100],
      [103, 99, 108, 105, 100], [109, 99, 95, 99, 105, 100],
      [109, 99, 95, 101, 105, 100], [114, 101, 102]] : List (List Nat)).contains
        (kL.map (fun c => byteLower c.toNat)) with
    | false => rfl
    | true =>
      exfalso
      have hmem := List.mem_of_elem_eq_true hcb
      simp only [List.mem_cons, List.not_mem_nil, or_false] at hmem
      rcases hmem with h | h | h | h | h | h | h | h <;>
        (rw [h] at hutm; exact absurd hutm (by decide))
  have hany : (([[117, 116, 109, 95]] : List (List Nat)).any
      (fun p => p.isPrefixOf (kL.map (fun c => byteLower c.toNat)))) = true := by
    have hpre : [117, 116, 109, 95] <+: kL.map (fun c => byteLower c.toNat) := by
      rw [← hutm]
      exact List.take_prefix 4 _
    simp [List.isPrefixOf_iff_prefix, hpre]
  unfold DedupStore.normalize_url
  dsimp only
  rw [show (("https://x.com/a?".toList ++ kL ++ '=' :: vL).asString).toList =
      "https://x.com/a?".toList ++ kL ++ '=' :: vL from rfl, hstrip,
    if_neg (by simp), hsplit]
  dsimp only
  rw [hqsl, hkb, hpb]
  have hitems : [((kL.map Char.toNat), (vL.map Char.toNat))].filter
      (fun kv =>
        if ([[115, 112, 109], [102, 114, 111, 109],
            [105, 103, 115, 104, 105, 100], [102, 98, 99, 108, 105, 100],
            [103, 99, 108, 105, 100], [109, 99, 95, 99, 105, 100],
            [109, 99, 95, 101, 105, 100],
            [114, 101, 102]] : List (List Nat)).contains (kv.1.map byteLower)
        then false
        else
          if (([[117, 116, 109, 95]] : List (List Nat)).any
              (fun p => p.isPrefixOf (kv.1.map byteLower))) then false
          else true) = [] := by
    rw [List.filter_cons]
    have hcond : (if ([[115, 112, 109], [102, 114, 111, 109],
        [105, 103, 115, 104, 105, 100], [102, 98, 99, 108, 105, 100],
        [103, 99, 108, 105, 100], [109, 99, 95, 99, 105, 100],
        [109, 99, 95, 101, 105, 100],
        [114, 101, 102]] : List (List Nat)).contains
          ((kL.map Char.toNat).map byteLower)
      then false
      else
        if (([[117, 116, 109, 95]] : List (List Nat)).any
            (fun p => p.isPrefixOf ((kL.map Char.toNat).map byteLower)))
        then false
        else true) = false := by
      rw [hlow, hcont, hany]
      rfl
    rw [hcond, if_neg Bool.false_ne_true, List.filter_nil]
  rw [hitems]
  rfl

/-- **C9**: normalization is invariant under host case, a trailing slash on a
non-root path, and configured tracking query parameters:
`normalize_url("https://WWW.Example.com/a/")` equals
`normalize_url("https://example.com/a")`; appending any `utm_`-named query
parameter to `https://x.com/a` leaves the normalized form unchanged; and in
the check/upsert scenario, `check` returns `exists=False` before
`upsert_seen("https://x.com/a?utm_source=y", "T")` and `exists=True` with
reason `same_source` for `check("https://x.com/a?utm_medium=z", "T")`
afterwards. -/
theorem normalization_tracking_invariance (k v : String) (now : Nat)
    (hkp : ∀ c ∈ k.toList, isPlainQueryChar c = true)
    (hvp : ∀ c ∈ v.toList, isPlainQueryChar c = true)
    (hutm : (k.toList.map (fun c => byteLower c.toNat)).take 4 =
      [117, 116, 109, 95]) :
    DedupStore.normalize_url (bouncer_dedup_query_drop_keys none)
        (bouncer_dedup_query_drop_prefixes none) "https://WWW.Example.com/a/" =
      DedupStore.normalize_url (bouncer_dedup_query_drop_keys none)
        (bouncer_dedup_query_drop_prefixes none) "https://example.com/a" ∧
    DedupStore.normalize_url (bouncer_dedup_query_drop_keys none)
        (bouncer_dedup_query_drop_prefixes none)
        (("https://x.com/a?".toList ++ k.toList ++ '=' :: v.toList).asString) =
      DedupStore.normalize_url (bouncer_dedup_query_drop_keys none)
        (bouncer_dedup_query_drop_prefixes none) "https://x.com/a" ∧
    DedupStore.check (bouncer_dedup_query_drop_keys none)
        (bouncer_dedup_query_drop_prefixes none) []
        "https://x.com/a?utm_medium=z" "T" =
      Except.ok ⟨false, "src:https://x.com/a", "same_source",
        "https://x.com/a", "x.com"⟩ ∧
    ∃ t', DedupStore.upsert_seen (bouncer_dedup_query_drop_keys none)
          (bouncer_dedup_query_drop_prefixes none) [] now
          "https://x.com/a?utm_source=y" "T" "" =
        Except.ok (t', ⟨true, "src:https://x.com/a", "same_source",
          "https://x.com/a", "x.com"⟩) ∧
      DedupStore.check (bouncer_dedup_query_drop_keys none)
          (bouncer_dedup_query_drop_prefixes none) t'
          "https://x.com/a?utm_medium=z" "T" =
        Except.ok ⟨true, "src:https://x.com/a", "same_source",
          "https://x.com/a", "x.com"⟩ := by
  refine ⟨by decide, ?_, by decide, ?_⟩
  · rw [normalize_url_utm_param k.toList v.toList hkp hvp hutm]
    decide
  · refine ⟨[⟨"src:https://x.com/a", "https://x.com/a", "t", "x.com",
      now, now, "", 1⟩], ?_, ?_⟩
    · rfl
    · rfl

/-- Witness for C9 at the concrete tracking parameter `utm_source=y`. -/
theorem normalization_tracking_invariance_witness :
    DedupStore.normalize_url (bouncer_dedup_query_drop_keys none)
      (bouncer_dedup_query_drop_prefixes none)
      (("https://x.com/a?".toList ++ "utm_source".toList ++
        '=' :: "y".toList).asString) =
      DedupStore.normalize_url (bouncer_dedup_query_drop_keys none)
        (bouncer_dedup_query_drop_prefixes none) "https://x.com/a" :=
  (normalization_tracking_invariance "utm_source" "y" 100
    (by decide) (by decide) (by decide)).2.1

end AGOS
